import Mathlib

/-!
# SignHub — verification of the transactional domain engine specification

This file shallowly embeds the SignHub client string helpers (taken directly
from the TypeScript source) and the server-side domain operations (the server
module is not part of the repository sources; those operations are modelled
from the specification, cross-checked against the integration test suite),
and proves or refutes the frozen specification claims about them.

Strings are modelled as `List Char`; JavaScript character classes are encoded
by their code points (`'a'` = 97, `'z'` = 122, `'0'` = 48, `'9'` = 57,
`'A'` = 65, `'Z'` = 90, `'-'` = 45).
-/

namespace SignHub

/-! ## Client string helpers (embedded from the client source) -/

/-- ASCII lowercasing of one character; embeds JS `toLowerCase` for the
ASCII range (the characters the slug alphabet can keep). -/
def jsToLower (c : Char) : Char :=
  if 65 ≤ c.toNat ∧ c.toNat ≤ 90 then Char.ofNat (c.toNat + 32) else c

/-- ASCII uppercasing of one character; embeds JS `toUpperCase` for the
ASCII range (the characters the invite-code alphabet can keep). -/
def jsToUpper (c : Char) : Char :=
  if 97 ≤ c.toNat ∧ c.toNat ≤ 122 then Char.ofNat (c.toNat - 32) else c

/-- The slug character class `[a-z0-9]` from `toSlug`'s regex. -/
def isSlugChar (c : Char) : Bool :=
  (97 ≤ c.toNat && c.toNat ≤ 122) || (48 ≤ c.toNat && c.toNat ≤ 57)

/-- White space removed by JS `String.prototype.trim` (space, tab, LF, CR,
VT, FF, NBSP, BOM, LS, PS). -/
def isJsSpace (c : Char) : Bool :=
  c.toNat == 32 || c.toNat == 9 || c.toNat == 10 || c.toNat == 13 ||
  c.toNat == 11 || c.toNat == 12 || c.toNat == 160 || c.toNat == 65279 ||
  c.toNat == 8232 || c.toNat == 8233

/-- JS `trim`: drop white space from both ends. -/
def jsTrim (l : List Char) : List Char :=
  ((l.dropWhile isJsSpace).reverse.dropWhile isJsSpace).reverse

/-- First phase of `.replace(/[^a-z0-9]+/g, '-')`: every character outside
`[a-z0-9]` becomes a dash. -/
def dashify (l : List Char) : List Char :=
  l.map (fun c => if isSlugChar c then c else '-')

/-- Second phase of `.replace(/[^a-z0-9]+/g, '-')`: a maximal run of
non-slug characters was replaced by a single dash, so consecutive dashes
produced by `dashify` collapse into one. -/
def squeezeDashes : List Char → List Char
  | [] => []
  | [c] => [c]
  | a :: b :: rest =>
    if a == '-' && b == '-' then squeezeDashes (b :: rest)
    else a :: squeezeDashes (b :: rest)

/-- `.replace(/^-+|-+$/g, '')`: drop leading and trailing dashes. -/
def stripDashEnds (l : List Char) : List Char :=
  ((l.dropWhile (fun c => c == '-')).reverse.dropWhile (fun c => c == '-')).reverse

/-- The client slug generator, embedded from
`src/client/src/components/CreateCompanyForm.tsx` (identical copies in
`src/client/src/App.tsx`, `src/unnamed/part_007` and `src/unnamed/part_012`):
`name.toLowerCase().trim().replace(/[^a-z0-9]+/g, '-').replace(/^-+|-+$/g, '')`. -/
def toSlug (l : List Char) : List Char :=
  stripDashEnds (squeezeDashes (dashify (jsTrim (l.map jsToLower))))

/-- The invite-code alphabet `[A-HJKLMNP-Z2-9]` (uppercase letters without
I and O, digits without 0 and 1): code points 65–72, 74–78, 80–90, 50–57. -/
def isCodeChar (c : Char) : Bool :=
  (65 ≤ c.toNat && c.toNat ≤ 72) || (74 ≤ c.toNat && c.toNat ≤ 78) ||
  (80 ≤ c.toNat && c.toNat ≤ 90) || (50 ≤ c.toNat && c.toNat ≤ 57)

/-- `value.toUpperCase().replace(/[^A-HJKLMNP-Z2-9]/g, '').slice(0, 16)`
from `formatCode` in `src/unnamed/part_012`. -/
def cleanCode (l : List Char) : List Char :=
  ((l.map jsToUpper).filter isCodeChar).take 16

/-- `clean.replace(/(.{4})(?=.)/g, '$1-')` from `formatCode` in
`src/unnamed/part_012`: after every four characters that are followed by at
least one more character, insert a dash. -/
def group4 : List Char → List Char
  | a :: b :: c :: d :: e :: rest => a :: b :: c :: d :: '-' :: group4 (e :: rest)
  | l => l

/-- The invite-code formatter from the application shell
(`src/unnamed/part_012`, `formatCode`). -/
def formatCode (l : List Char) : List Char :=
  group4 (cleanCode l)

/-- The character class `[A-Z0-9]` used by the `formatCode` variant in
`src/client/src/components/JoinCompanyForm.tsx` (it keeps I, O, 0 and 1). -/
def isUpperAlnum (c : Char) : Bool :=
  (65 ≤ c.toNat && c.toNat ≤ 90) || (48 ≤ c.toNat && c.toNat ≤ 57)

/-- The invite-code formatter from
`src/client/src/components/JoinCompanyForm.tsx`:
`clean = value.toUpperCase().replace(/[^A-Z0-9]/g, '')`; if
`clean.length > 4` the result is `clean.slice(0, 4) + '-' + clean.slice(4, 8)`,
else `clean`. -/
def formatCodeJoinForm (l : List Char) : List Char :=
  let clean := (l.map jsToUpper).filter isUpperAlnum
  if 4 < clean.length then clean.take 4 ++ '-' :: (clean.drop 4).take 4
  else clean

/-- `^[A-HJKLMNP-Z2-9]{4}(-[A-HJKLMNP-Z2-9]{4}){3}$` as a positional check:
19 characters, dashes exactly at indices 4, 9 and 14, alphabet characters
everywhere else. -/
def matchesCanonicalCode (l : List Char) : Bool :=
  l.length == 19 &&
  (List.range 19).all (fun k =>
    if k == 4 || k == 9 || k == 14 then l.getD k 'A' == '-'
    else isCodeChar (l.getD k 'A'))

/-- `a :: l` has no two consecutive dashes. -/
def noDoubleDash : List Char → Bool
  | a :: b :: rest => !(a == '-' && b == '-') && noDoubleDash (b :: rest)
  | _ => true

/-! ## Domain data model

The transactional engine's tables (§3 of the specification). The server
module is not among the repository's source files; these definitions are
modelled from the specification. Identities and ids are `Nat`. -/

/-- Membership role (§3). -/
inductive Role where
  | owner
  | admin
  | member
  | field
  | installer
  | pending
deriving DecidableEq, Repr

/-- Connection status (§3). -/
inductive ConnStatus where
  | pending
  | accepted
  | blocked
deriving DecidableEq, Repr

/-- ProjectMember status (§3). -/
inductive PMStatus where
  | invited
  | accepted
  | declined
  | kicked
  | left
deriving DecidableEq, Repr

/-- Notification type tags (§4.7). -/
inductive NotifType where
  | memberJoined
  | ownershipTransferred
  | removed
  | connectionRequested
  | connectionAccepted
  | chatMessage
  | projectInvite
  | projectAccepted
  | projectDeclined
  | projectKicked
  | projectLeft
  | projectChatMsg
deriving DecidableEq, Repr

/-- Account row (§3): one per identity; `active_company_id` nullable. -/
structure Account where
  identity : Nat
  full_name : String
  nickname : String
  email : String
  active_company_id : Option Nat
deriving DecidableEq, Repr

/-- Company row (§3); only the fields the claims touch. -/
structure Company where
  id : Nat
  name : String
  slug : String
  location : String
deriving DecidableEq, Repr

/-- Membership row (§3): (account × company) with a role. -/
structure Membership where
  identity : Nat
  company_id : Nat
  role : Role
deriving DecidableEq, Repr

/-- InviteCode row (§3). -/
structure InviteCode where
  code : String
  company_id : Nat
  uses_remaining : Nat
deriving DecidableEq, Repr

/-- Connection row (§3): canonical pair `company_a < company_b`.
The specification's §4.4 contracts compare the caller's company against the
requesting side, so the requesting company is stored directly. -/
structure Connection where
  id : Nat
  company_a : Nat
  company_b : Nat
  status : ConnStatus
  requested_by_company : Nat
  blocking_company_id : Option Nat
deriving DecidableEq, Repr

/-- ConnectionChat row (§3). -/
structure ConnectionChat where
  id : Nat
  connection_id : Nat
  sender : Nat
  text : String
deriving DecidableEq, Repr

/-- Project row (§3). -/
structure Project where
  id : Nat
  owner_company_id : Nat
  name : String
  description : String
deriving DecidableEq, Repr

/-- ProjectMember row (§3). -/
structure ProjectMember where
  project_id : Nat
  company_id : Nat
  status : PMStatus
deriving DecidableEq, Repr

/-- ProjectChat row (§3). -/
structure ProjectChat where
  id : Nat
  project_id : Nat
  sender : Nat
  text : String
deriving DecidableEq, Repr

/-- Notification row (§3); the tag is what the claims observe. -/
structure Notification where
  recipient : Nat
  company_id : Nat
  ntype : NotifType
deriving DecidableEq, Repr

/-- Length of a string after JS-style trimming (validation is specified on
trimmed values, §4.8). -/
def trimLen (s : String) : Nat :=
  (jsTrim s.data).length

/-- The whole transactional state: the tables of §3 plus the monotone id
allocator. -/
structure DB where
  accounts : List Account
  companies : List Company
  memberships : List Membership
  invite_codes : List InviteCode
  connections : List Connection
  connection_chats : List ConnectionChat
  projects : List Project
  project_members : List ProjectMember
  project_chats : List ProjectChat
  notifications : List Notification
  next_id : Nat
deriving DecidableEq, Repr

/-- The empty initial state. -/
def emptyDB : DB :=
  ⟨[], [], [], [], [], [], [], [], [], [], 1⟩

/-! ## Authorization context and lookup helpers (§4.1, §6) -/

/-- Unique index `account(identity)`. -/
def findAccount (db : DB) (i : Nat) : Option Account :=
  db.accounts.find? (fun a => a.identity == i)

/-- Unique index `membership(identity, company_id)`. -/
def findMembership (db : DB) (i c : Nat) : Option Membership :=
  db.memberships.find? (fun m => m.identity == i && m.company_id == c)

/-- Unique index `company(id)`. -/
def companyExists (db : DB) (c : Nat) : Bool :=
  db.companies.any (fun co => co.id == c)

/-- Unique index `invite_code(code)`. -/
def findInvite (db : DB) (code : String) : Option InviteCode :=
  db.invite_codes.find? (fun ic => ic.code == code)

/-- Unique canonical index `connection(company_a, company_b)`. -/
def findConnection (db : DB) (ca cb : Nat) : Option Connection :=
  db.connections.find? (fun r => r.company_a == ca && r.company_b == cb)

/-- Primary-key lookup on connections. -/
def findConnectionById (db : DB) (cid : Nat) : Option Connection :=
  db.connections.find? (fun r => r.id == cid)

/-- Primary-key lookup on projects. -/
def findProject (db : DB) (pid : Nat) : Option Project :=
  db.projects.find? (fun p => p.id == pid)

/-- Unique index `project_member(project_id, company_id)`. -/
def findProjectMember (db : DB) (pid c : Nat) : Option ProjectMember :=
  db.project_members.find? (fun pm => pm.project_id == pid && pm.company_id == c)

/-- `can_manage` — role ∈ {Owner, Admin} (§4.1). -/
def canManage : Role → Bool
  | .owner => true
  | .admin => true
  | _ => false

/-- The caller's active company, if any. -/
def activeCompanyOf (db : DB) (i : Nat) : Option Nat :=
  match findAccount db i with
  | none => none
  | some a => a.active_company_id

/-- Resolve the caller's authorization context (§4.1): account →
active company → membership role. -/
def activeCompanyRole (db : DB) (i : Nat) : Option (Nat × Role) :=
  match findAccount db i with
  | none => none
  | some a =>
    match a.active_company_id with
    | none => none
    | some c =>
      match findMembership db i c with
      | none => none
      | some m => some (c, m.role)

/-- Fan-out (§4.7): one notification per `can_manage` member of company `c`. -/
def notifyManagers (db : DB) (c : Nat) (t : NotifType) : List Notification :=
  (db.memberships.filter (fun m => m.company_id == c && canManage m.role)).map
    (fun m => ⟨m.identity, c, t⟩)

/-! ## Operations

Modelled from the spec: the server module implementing the named operations
is not among the repository's source files (only the browser client and the
integration test suite are), so each operation below is translated from its
§4 contract, with the integration tests in
`src/client/tests/integration.test.ts` deciding behaviour where they speak.
Every operation returns `Except String DB`: an error aborts with no writes. -/

/-- Modelled from the spec: `create_account` (§4.2) — validates trimmed
lengths 1..50 / 1..30 / 1..100, rejects an existing account, inserts an
account with `active_company_id = null`. -/
def create_account (db : DB) (i : Nat) (full_name nickname email : String) :
    Except String DB :=
  if trimLen full_name = 0 then .error "Name cannot be empty"
  else if 50 < trimLen full_name then .error "Name too long"
  else if trimLen nickname = 0 then .error "Nickname cannot be empty"
  else if 30 < trimLen nickname then .error "Nickname too long"
  else if trimLen email = 0 then .error "Email cannot be empty"
  else if 100 < trimLen email then .error "Email too long"
  else if (findAccount db i).isSome then .error "Account already exists"
  else .ok { db with
    accounts := ⟨i, full_name, nickname, email, none⟩ :: db.accounts }

/-- Modelled from the spec: `create_company` (§4.2) — requires an account,
validates the three fields, checks slug uniqueness, atomically inserts the
Company and an Owner Membership and sets the caller's `active_company_id`. -/
def create_company (db : DB) (i : Nat) (name slug location : String) :
    Except String DB :=
  match findAccount db i with
  | none => .error "Account not found"
  | some _ =>
    if trimLen name = 0 then .error "Company name cannot be empty"
    else if 100 < trimLen name then .error "Company name too long"
    else if trimLen slug = 0 then .error "Slug cannot be empty"
    else if 50 < trimLen slug then .error "Slug too long"
    else if trimLen location = 0 then .error "Location cannot be empty"
    else if 100 < trimLen location then .error "Location too long"
    else if db.companies.any (fun co => co.slug == slug) then .error "Slug already taken"
    else .ok { db with
      companies := ⟨db.next_id, name, slug, location⟩ :: db.companies,
      memberships := ⟨i, db.next_id, Role.owner⟩ :: db.memberships,
      accounts := db.accounts.map (fun a =>
        if a.identity == i then { a with active_company_id := some db.next_id } else a),
      next_id := db.next_id + 1 }

/-- Modelled from the spec: `switch_active_company` (§4.2) — requires a
non-Pending membership in the target company. -/
def switch_active_company (db : DB) (i c : Nat) : Except String DB :=
  match findAccount db i with
  | none => .error "Account not found"
  | some _ =>
    match findMembership db i c with
    | none => .error "Not permitted"
    | some m =>
      if m.role = Role.pending then .error "Not permitted"
      else .ok { db with
        accounts := db.accounts.map (fun a =>
          if a.identity == i then { a with active_company_id := some c } else a) }

/-- Modelled from the spec: `generate_invite_code` (§4.3) — requires
`can_manage`; the random oracle supplies `code`, and rejection sampling
guarantees it is free (a collision aborts). Inserts the code with
`uses_remaining = max_uses ≥ 1`. -/
def generate_invite_code (db : DB) (i : Nat) (code : String) (max_uses : Nat) :
    Except String DB :=
  match activeCompanyRole db i with
  | none => .error "Not permitted"
  | some (c, r) =>
    if canManage r = false then .error "Not permitted"
    else if max_uses = 0 then .error "Max uses must be at least 1"
    else if (findInvite db code).isSome then .error "Code collision"
    else .ok { db with invite_codes := ⟨code, c, max_uses⟩ :: db.invite_codes }

/-- Modelled from the spec: `join_company` (§4.3) — requires an account;
fails `Invalid invite code` when the code is missing or exhausted and
`Already a member` on a duplicate membership. Otherwise inserts a Pending
membership, decrements `uses_remaining` (deleting the row at 0), on the
caller's first membership sets `active_company_id` to the joined company,
and notifies the target company's managers. -/
def join_company (db : DB) (i : Nat) (code : String) : Except String DB :=
  match findAccount db i with
  | none => .error "Account not found"
  | some _ =>
    match findInvite db code with
    | none => .error "Invalid invite code"
    | some ic =>
      if ic.uses_remaining = 0 then .error "Invalid invite code"
      else if db.memberships.any (fun m => m.identity == i && m.company_id == ic.company_id) then
        .error "Already a member of this company"
      else
        .ok { db with
          memberships := ⟨i, ic.company_id, Role.pending⟩ :: db.memberships,
          invite_codes :=
            if ic.uses_remaining = 1 then
              db.invite_codes.filter (fun ic2 => !(ic2.code == code))
            else
              db.invite_codes.map (fun ic2 =>
                if ic2.code == code then { ic2 with uses_remaining := ic2.uses_remaining - 1 }
                else ic2),
          accounts :=
            if db.memberships.all (fun m => !(m.identity == i)) then
              db.accounts.map (fun a =>
                if a.identity == i then { a with active_company_id := some ic.company_id } else a)
            else db.accounts,
          notifications := notifyManagers db ic.company_id NotifType.memberJoined ++ db.notifications }

/-- Modelled from the spec: `transfer_ownership` (§4.3) — requires
`is_owner`; the target must hold a non-Pending membership of the same
company. Atomically demotes the caller to Admin and promotes the target to
Owner, notifying both parties. -/
def transfer_ownership (db : DB) (i target : Nat) : Except String DB :=
  match activeCompanyRole db i with
  | none => .error "Not permitted"
  | some (c, r) =>
    if r ≠ Role.owner then .error "Only the owner can transfer ownership"
    else
      match findMembership db target c with
      | none => .error "Target is not a member of this company"
      | some tm =>
        if tm.role = Role.pending then .error "Target membership is pending"
        else .ok { db with
          memberships := db.memberships.map (fun m =>
            if m.identity == i && m.company_id == c then { m with role := Role.admin }
            else if m.identity == target && m.company_id == c then { m with role := Role.owner }
            else m),
          notifications :=
            ⟨i, c, NotifType.ownershipTransferred⟩ ::
            ⟨target, c, NotifType.ownershipTransferred⟩ :: db.notifications }

/-- Modelled from the spec: `request_connection` (§4.4) — requires
`can_manage`; validates the message, rejects self-target, missing target and
an existing Pending/Accepted row. Ghosting: an existing Blocked row makes
the operation return `Ok` silently, changing nothing. Otherwise creates a
Pending row on the canonical pair and notifies the target's managers. -/
def request_connection (db : DB) (i target : Nat) (message : String) :
    Except String DB :=
  match activeCompanyRole db i with
  | none => .error "Not permitted"
  | some (a, r) =>
    if canManage r = false then .error "Not permitted"
    else if 500 < message.length then .error "Message too long"
    else if target == a then .error "Cannot connect to your own company"
    else if !(companyExists db target) then .error "Company not found"
    else
      match findConnection db (min a target) (max a target) with
      | some row =>
        match row.status with
        | ConnStatus.blocked => .ok db
        | _ => .error "Connection already exists"
      | none =>
        .ok { db with
          connections :=
            ⟨db.next_id, min a target, max a target, ConnStatus.pending, a, none⟩ ::
            db.connections,
          next_id := db.next_id + 1,
          notifications := notifyManagers db target NotifType.connectionRequested ++ db.notifications }

/-- Modelled from the spec: `accept_connection` (§4.4) — requires
`can_manage`; the canonical row must exist with status Pending and the
caller's company must not be the requesting side. Transitions the row to
Accepted and notifies the requester side's managers. -/
def accept_connection (db : DB) (i target : Nat) : Except String DB :=
  match activeCompanyRole db i with
  | none => .error "Not permitted"
  | some (a, r) =>
    if canManage r = false then .error "Not permitted"
    else
      match findConnection db (min a target) (max a target) with
      | none => .error "Connection not found"
      | some row =>
        if row.status ≠ ConnStatus.pending then .error "not pending"
        else if row.requested_by_company == a then .error "cannot accept your own"
        else .ok { db with
          connections := db.connections.map (fun r2 =>
            if r2.company_a == min a target && r2.company_b == max a target then
              { r2 with status := ConnStatus.accepted }
            else r2),
          notifications :=
            notifyManagers db row.requested_by_company NotifType.connectionAccepted ++
            db.notifications }

/-- Modelled from the spec: `block_company` (§4.4) — requires `can_manage`;
creates or transitions the canonical row to Blocked with
`blocking_company_id` = the caller's company, cascading the chats. -/
def block_company (db : DB) (i target : Nat) : Except String DB :=
  match activeCompanyRole db i with
  | none => .error "Not permitted"
  | some (a, r) =>
    if canManage r = false then .error "Not permitted"
    else if target == a then .error "Cannot block your own company"
    else if !(companyExists db target) then .error "Company not found"
    else
      match findConnection db (min a target) (max a target) with
      | some row =>
        .ok { db with
          connections := db.connections.map (fun r2 =>
            if r2.company_a == min a target && r2.company_b == max a target then
              { r2 with status := ConnStatus.blocked, blocking_company_id := some a }
            else r2),
          connection_chats := db.connection_chats.filter (fun ch => !(ch.connection_id == row.id)) }
      | none =>
        .ok { db with
          connections :=
            ⟨db.next_id, min a target, max a target, ConnStatus.blocked, a, some a⟩ ::
            db.connections,
          next_id := db.next_id + 1 }

/-- Modelled from the spec: `send_connection_chat` (§4.5) — text 1..500,
caller's active company must be a party to the connection, fails on a
Blocked row, succeeds for Pending or Accepted, inserting one chat row and
notifying the other company's managers. -/
def send_connection_chat (db : DB) (i cid : Nat) (text : String) :
    Except String DB :=
  if text.length = 0 then .error "Message cannot be empty"
  else if 500 < text.length then .error "Message too long"
  else
    match activeCompanyRole db i with
    | none => .error "Not permitted"
    | some (a, _r) =>
      match findConnectionById db cid with
      | none => .error "Connection not found"
      | some row =>
        if !(row.company_a == a || row.company_b == a) then .error "Not permitted"
        else if row.status = ConnStatus.blocked then .error "blocked connection"
        else
          .ok { db with
            connection_chats := ⟨db.next_id, cid, i, text⟩ :: db.connection_chats,
            next_id := db.next_id + 1,
            notifications :=
              notifyManagers db (if row.company_a == a then row.company_b else row.company_a)
                NotifType.chatMessage ++ db.notifications }

/-- Modelled from the spec: `create_project` (§4.6) — requires
`can_manage`; validates name 1..80 and description 0..500; inserts the
Project and the owner's Accepted ProjectMember. -/
def create_project (db : DB) (i : Nat) (name description : String) :
    Except String DB :=
  match activeCompanyRole db i with
  | none => .error "Not permitted"
  | some (a, r) =>
    if canManage r = false then .error "Not permitted"
    else if trimLen name = 0 then .error "Project name cannot be empty"
    else if 80 < trimLen name then .error "Project name too long"
    else if 500 < description.length then .error "Project description too long"
    else .ok { db with
      projects := ⟨db.next_id, a, name, description⟩ :: db.projects,
      project_members := ⟨db.next_id, a, PMStatus.accepted⟩ :: db.project_members,
      next_id := db.next_id + 1 }

/-- Modelled from the spec: `accept_project_invite` (§4.6) — requires
`can_manage` and an Invited ProjectMember for the caller's company; sets
its status to Accepted in place and notifies the owner company. -/
def accept_project_invite (db : DB) (i pid : Nat) : Except String DB :=
  match activeCompanyRole db i with
  | none => .error "Not permitted"
  | some (a, r) =>
    if canManage r = false then .error "Not permitted"
    else
      match findProject db pid with
      | none => .error "Project not found"
      | some p =>
        match findProjectMember db pid a with
        | none => .error "No pending invite"
        | some pm =>
          if pm.status ≠ PMStatus.invited then .error "No pending invite"
          else .ok { db with
            project_members := db.project_members.map (fun pm2 =>
              if pm2.project_id == pid && pm2.company_id == a then
                { pm2 with status := PMStatus.accepted }
              else pm2),
            notifications :=
              notifyManagers db p.owner_company_id NotifType.projectAccepted ++ db.notifications }

/-- Modelled from the spec and the test suite: `decline_project_invite`
(§4.6) — requires `can_manage` and an Invited ProjectMember for the caller's
company. Where the spec text says the status becomes Declined, the
integration test (`re-invite after leave works`,
`src/client/tests/integration.test.ts:1486-1505`) waits for the
ProjectMember row to disappear after a decline, so the row is deleted. The
owner company is notified. -/
def decline_project_invite (db : DB) (i pid : Nat) : Except String DB :=
  match activeCompanyRole db i with
  | none => .error "Not permitted"
  | some (a, r) =>
    if canManage r = false then .error "Not permitted"
    else
      match findProject db pid with
      | none => .error "Project not found"
      | some p =>
        match findProjectMember db pid a with
        | none => .error "No pending invite"
        | some pm =>
          if pm.status ≠ PMStatus.invited then .error "No pending invite"
          else .ok { db with
            project_members := db.project_members.filter (fun pm2 =>
              !(pm2.project_id == pid && pm2.company_id == a)),
            notifications :=
              notifyManagers db p.owner_company_id NotifType.projectDeclined ++ db.notifications }

/-- Modelled from the spec: `delete_project` (§4.6, §4.9) — requires
`can_manage` with the caller's company owning the project; cascades all
ProjectMember and ProjectChat rows in the same atomic write. -/
def delete_project (db : DB) (i pid : Nat) : Except String DB :=
  match activeCompanyRole db i with
  | none => .error "Not permitted"
  | some (a, r) =>
    if canManage r = false then .error "Not permitted"
    else
      match findProject db pid with
      | none => .error "Project not found"
      | some p =>
        if p.owner_company_id ≠ a then .error "Only the owner company can delete the project"
        else .ok { db with
          projects := db.projects.filter (fun p2 => !(p2.id == pid)),
          project_members := db.project_members.filter (fun pm => !(pm.project_id == pid)),
          project_chats := db.project_chats.filter (fun ch => !(ch.project_id == pid)) }

/-! ## Invariants and the step relation -/

/-- Invariant 6 as the spec states it (§8): every account's
`active_company_id` is null or backed by a non-Pending membership. -/
def inv6strict (db : DB) : Bool :=
  db.accounts.all (fun a =>
    match a.active_company_id with
    | none => true
    | some c => db.memberships.any (fun m =>
        m.identity == a.identity && m.company_id == c && !(m.role == Role.pending)))

/-- The weakening of invariant 6 that the operations actually maintain:
every account's `active_company_id` is null or backed by a membership of
any role (`join_company` activates a company whose membership is still
Pending). -/
def inv6member (db : DB) : Bool :=
  db.accounts.all (fun a =>
    match a.active_company_id with
    | none => true
    | some c => db.memberships.any (fun m =>
        m.identity == a.identity && m.company_id == c))

/-- One committed operation of the modelled engine. -/
inductive Step : DB → DB → Prop where
  | createAccount {db db' i fn nn em} :
      create_account db i fn nn em = .ok db' → Step db db'
  | createCompany {db db' i n s loc} :
      create_company db i n s loc = .ok db' → Step db db'
  | switchActive {db db' i c} :
      switch_active_company db i c = .ok db' → Step db db'
  | genInvite {db db' i code n} :
      generate_invite_code db i code n = .ok db' → Step db db'
  | joinCompany {db db' i code} :
      join_company db i code = .ok db' → Step db db'
  | transferOwn {db db' i t} :
      transfer_ownership db i t = .ok db' → Step db db'
  | requestConn {db db' i t m} :
      request_connection db i t m = .ok db' → Step db db'
  | acceptConn {db db' i t} :
      accept_connection db i t = .ok db' → Step db db'
  | blockComp {db db' i t} :
      block_company db i t = .ok db' → Step db db'
  | sendConnChat {db db' i cid text} :
      send_connection_chat db i cid text = .ok db' → Step db db'
  | createProject {db db' i n d} :
      create_project db i n d = .ok db' → Step db db'
  | acceptProjInvite {db db' i p} :
      accept_project_invite db i p = .ok db' → Step db db'
  | declineProjInvite {db db' i p} :
      decline_project_invite db i p = .ok db' → Step db db'
  | deleteProject {db db' i p} :
      delete_project db i p = .ok db' → Step db db'

/-- Fold `join_company` over a list of callers (the §8 invite lifecycle). -/
def joinAll (code : String) : DB → List Nat → Except String DB
  | db, [] => .ok db
  | db, i :: rest =>
    match join_company db i code with
    | .ok db' => joinAll code db' rest
    | .error e => .error e

/-- Extract the committed state of a successful operation
(`emptyDB` on error; used only to name concrete result states). -/
def okState (x : Except String DB) : DB :=
  match x with
  | .ok d => d
  | .error _ => emptyDB

/-! ## Concrete states used to evaluate the theorems -/

/-- Companies 10 and 20 with a Blocked connection between them; identity 1
is the Owner of company 10. -/
def dbGhost : DB :=
  { emptyDB with
    accounts := [⟨1, "Alice", "Alice", "a@x.test", some 10⟩],
    companies := [⟨10, "Alpha", "alpha", "NL"⟩, ⟨20, "Beta", "beta", "NL"⟩],
    memberships := [⟨1, 10, Role.owner⟩],
    connections := [⟨5, 10, 20, ConnStatus.blocked, 20, some 20⟩] }

/-- Identity 2 manages company 20, which holds an Invited ProjectMember row
for project 100 owned by company 10. -/
def dbInvite : DB :=
  { emptyDB with
    accounts := [⟨2, "Bob", "Bob", "b@x.test", some 20⟩],
    companies := [⟨10, "Alpha", "alpha", "NL"⟩, ⟨20, "Beta", "beta", "NL"⟩],
    memberships := [⟨2, 20, Role.owner⟩],
    projects := [⟨100, 10, "Hospital", "Signage"⟩],
    project_members := [⟨100, 10, PMStatus.accepted⟩, ⟨100, 20, PMStatus.invited⟩] }

/-- Owner 1 and a plain Member 2 of company 10 (used to refute the
transfer-ownership involution for a non-Admin target). -/
def dbXfer : DB :=
  { emptyDB with
    accounts := [⟨1, "X", "X", "x@x.test", some 10⟩, ⟨2, "Y", "Y", "y@x.test", some 10⟩],
    companies := [⟨10, "C", "c", "L"⟩],
    memberships := [⟨1, 10, Role.owner⟩, ⟨2, 10, Role.member⟩] }

/-- Owner 1 and an Admin 2 of company 10 (the amended involution holds
here). -/
def dbXferAdmin : DB :=
  { emptyDB with
    accounts := [⟨1, "X", "X", "x@x.test", some 10⟩, ⟨2, "Y", "Y", "y@x.test", some 10⟩],
    companies := [⟨10, "C", "c", "L"⟩],
    memberships := [⟨1, 10, Role.owner⟩, ⟨2, 10, Role.admin⟩] }

/-- The reachable state of the §8 scenario that violates strict invariant 6:
an owner creates a company and a single-use invite code, then a second
account joins. -/
def dbJoinChain : Except String DB :=
  (create_account emptyDB 2 "Owner" "Own" "o@x.test").bind (fun d =>
  (create_company d 2 "Alpha Signs" "alpha-signs" "Amsterdam").bind (fun d =>
  (generate_invite_code d 2 "ABCD-EFGH-JKLM-NPQR" 1).bind (fun d =>
  (create_account d 1 "Bob" "Bob" "b@x.test").bind (fun d =>
  join_company d 1 "ABCD-EFGH-JKLM-NPQR"))))

/-- Identity 9 owns company 10; identities 1 and 2 hold accounts with no
membership; the invite code "JOIN" has two uses left. -/
def dbJoin2 : DB :=
  { emptyDB with
    accounts := [⟨9, "Own", "Own", "o@x.test", some 10⟩,
                 ⟨1, "P", "P", "p@x.test", none⟩, ⟨2, "Q", "Q", "q@x.test", none⟩],
    companies := [⟨10, "Alpha", "alpha", "NL"⟩],
    memberships := [⟨9, 10, Role.owner⟩],
    invite_codes := [⟨"JOIN", 10, 2⟩] }

/-- Like `dbJoin2` but without the code row (the lifecycle witness lets
`generate_invite_code` create it). -/
def dbJoin0 : DB :=
  { emptyDB with
    accounts := [⟨9, "Own", "Own", "o@x.test", some 10⟩,
                 ⟨1, "P", "P", "p@x.test", none⟩, ⟨2, "Q", "Q", "q@x.test", none⟩],
    companies := [⟨10, "Alpha", "alpha", "NL"⟩],
    memberships := [⟨9, 10, Role.owner⟩] }

/-- Identity 1 manages company 10 which owns project 100; the project has
member and chat rows, and an unrelated project 200 with its own rows. -/
def dbProj : DB :=
  { emptyDB with
    accounts := [⟨1, "A", "A", "a@x.test", some 10⟩],
    companies := [⟨10, "Alpha", "alpha", "NL"⟩, ⟨20, "Beta", "beta", "NL"⟩],
    memberships := [⟨1, 10, Role.owner⟩],
    projects := [⟨100, 10, "P", "D"⟩, ⟨200, 10, "Q", "E"⟩],
    project_members := [⟨100, 10, PMStatus.accepted⟩, ⟨100, 20, PMStatus.accepted⟩,
                        ⟨200, 10, PMStatus.accepted⟩],
    project_chats := [⟨7, 100, 1, "hello"⟩, ⟨8, 200, 1, "other"⟩] }

/-- A Pending connection between companies 10 and 20 requested by 20;
identity 1 is a member of company 10, identity 2 manages it. -/
def dbConn : DB :=
  { emptyDB with
    accounts := [⟨1, "A", "A", "a@x.test", some 10⟩, ⟨2, "B", "B", "b@x.test", some 10⟩],
    companies := [⟨10, "Alpha", "alpha", "NL"⟩, ⟨20, "Beta", "beta", "NL"⟩],
    memberships := [⟨1, 10, Role.member⟩, ⟨2, 10, Role.admin⟩],
    connections := [⟨5, 10, 20, ConnStatus.pending, 20, none⟩],
    connection_chats := [⟨6, 5, 1, "What dimensions?"⟩] }

/-! ## General helper lemmas -/

/-- `find?` commutes with a map that does not change the predicate. -/
theorem find?_map_pres {α : Type} (f : α → α) (p : α → Bool) (l : List α)
    (h : ∀ x, p (f x) = p x) : (l.map f).find? p = (l.find? p).map f := by
  induction l with
  | nil => simp
  | cons x xs ih =>
    by_cases hx : p x = true
    · simp [List.find?_cons_of_pos, hx, h x]
    · have hfx : ¬ p (f x) = true := by rw [h x]; exact hx
      simp only [List.map_cons]
      rw [List.find?_cons_of_neg _ hfx, List.find?_cons_of_neg _ hx]
      exact ih

/-- A `find?` over a list whose matching elements were filtered away. -/
theorem find?_filter_not {α : Type} (p : α → Bool) (l : List α) :
    (l.filter (fun x => !(p x))).find? p = none := by
  rw [List.find?_eq_none]
  intro x hx
  have := (List.mem_filter.mp hx).2
  simp at this
  simp [this]

/-- If filtering by `p` yields exactly `[x]`, then `find? p` yields `x`. -/
theorem find?_of_filter_singleton {α : Type} (p : α → Bool) (l : List α) (x : α)
    (h : l.filter p = [x]) : l.find? p = some x := by
  induction l with
  | nil => simp at h
  | cons a as ih =>
    by_cases ha : p a = true
    · rw [List.filter_cons_of_pos ha] at h
      injection h with h1 h2
      subst h1
      simp [List.find?_cons_of_pos, ha]
    · rw [List.filter_cons_of_neg (by simpa using ha)] at h
      rw [List.find?_cons_of_neg _ ha]
      exact ih h

/-- Any element of the list satisfying `p` is the singleton filter result. -/
theorem eq_of_filter_singleton {α : Type} (p : α → Bool) (l : List α) (x : α)
    (h : l.filter p = [x]) : ∀ y ∈ l, p y = true → y = x := by
  intro y hy hpy
  have : y ∈ l.filter p := List.mem_filter.mpr ⟨hy, hpy⟩
  rw [h] at this
  simpa using this

/-- Filtering a mapped list is mapping the filtered list, when the
predicates correspond pointwise and the two maps agree on hits. -/
theorem filter_map_switch {α : Type} (f g : α → α) (p q : α → Bool) (l : List α)
    (hpq : ∀ m ∈ l, p (f m) = q m) (hfg : ∀ m ∈ l, q m = true → f m = g m) :
    (l.map f).filter p = (l.filter q).map g := by
  induction l with
  | nil => simp
  | cons x xs ih =>
    have hx := hpq x (by simp)
    have ih' := ih (fun m hm => hpq m (by simp [hm])) (fun m hm h2 => hfg m (by simp [hm]) h2)
    by_cases hq : q x = true
    · rw [List.map_cons, List.filter_cons_of_pos (by rw [hx]; exact hq),
        List.filter_cons_of_pos hq, List.map_cons, ih', hfg x (by simp) hq]
    · rw [List.map_cons, List.filter_cons_of_neg (by rw [hx]; simpa using hq),
        List.filter_cons_of_neg (by simpa using hq), ih']

/-- Resolving the authorization context from its two ingredients. -/
theorem activeCompanyRole_of (db : DB) (i c : Nat) (m : Membership)
    (hac : activeCompanyOf db i = some c) (hm : findMembership db i c = some m) :
    activeCompanyRole db i = some (c, m.role) := by
  unfold activeCompanyOf at hac
  unfold activeCompanyRole
  rcases hA : findAccount db i with _ | a
  · rw [hA] at hac
    simp at hac
  · rw [hA] at hac
    simp only [] at hac
    simp only []
    rw [hac]
    simp only []
    rw [hm]

/-! ## C1 — ghosting: request against a Blocked pair is a silent no-op -/

/-- C1: with a Blocked row on the canonical pair of the caller's active
company `A` and the target `B`, `request_connection` invoked by a manager
of `A` returns `Ok` with the state unchanged — no Connection row is created
or modified and no notification is emitted. -/
theorem c1_ghosting_silent_noop
    (db : DB) (i A B : Nat) (r : Role) (message : String) (row : Connection)
    (hctx : activeCompanyRole db i = some (A, r))
    (hmgr : canManage r = true)
    (hmsg : message.length ≤ 500)
    (hne : B ≠ A)
    (hex : companyExists db B = true)
    (hrow : findConnection db (min A B) (max A B) = some row)
    (hblocked : row.status = ConnStatus.blocked) :
    request_connection db i B message = Except.ok db := by
  unfold request_connection
  rw [hctx]
  simp only [hmgr, Bool.true_eq_false, if_false]
  rw [if_neg (by omega)]
  rw [if_neg (by simp [hne])]
  rw [if_neg (by simp [hex])]
  rw [hrow]
  simp [hblocked]

/-- C1 witness: the theorem applied to the concrete Blocked state
`dbGhost`. -/
theorem c1_ghosting_silent_noop_witness :
    request_connection dbGhost 1 20 "Hello?" = Except.ok dbGhost :=
  c1_ghosting_silent_noop dbGhost 1 10 20 Role.owner "Hello?"
    ⟨5, 10, 20, ConnStatus.blocked, 20, some 20⟩
    rfl rfl (by decide) (by decide) rfl rfl rfl

/-! ## C6 — project deletion cascades members and chats atomically -/

/-- C6: `delete_project` by a manager of the owning company succeeds in one
atomic write, removing the Project row and every ProjectMember and
ProjectChat row of that project and nothing else. -/
theorem c6_delete_project_cascade
    (db : DB) (i pid a : Nat) (r : Role) (p : Project)
    (hctx : activeCompanyRole db i = some (a, r))
    (hmgr : canManage r = true)
    (hproj : findProject db pid = some p)
    (hown : p.owner_company_id = a) :
    ∃ db', delete_project db i pid = Except.ok db' ∧
      db'.projects = db.projects.filter (fun p2 => !(p2.id == pid)) ∧
      db'.project_members = db.project_members.filter (fun pm => !(pm.project_id == pid)) ∧
      db'.project_chats = db.project_chats.filter (fun ch => !(ch.project_id == pid)) ∧
      (∀ q ∈ db'.projects, q.id ≠ pid) ∧
      (∀ pm ∈ db'.project_members, pm.project_id ≠ pid) ∧
      (∀ ch ∈ db'.project_chats, ch.project_id ≠ pid) ∧
      db'.accounts = db.accounts ∧ db'.memberships = db.memberships ∧
      db'.connections = db.connections ∧ db'.connection_chats = db.connection_chats := by
  unfold delete_project
  rw [hctx]
  simp only [hmgr, Bool.true_eq_false, if_false]
  rw [hproj]
  simp only []
  rw [if_neg (by simp [hown])]
  refine ⟨_, rfl, rfl, rfl, rfl, ?_, ?_, ?_, rfl, rfl, rfl, rfl⟩
  · intro q hq
    have := (List.mem_filter.mp hq).2
    simpa using this
  · intro pm hpm
    have := (List.mem_filter.mp hpm).2
    simpa using this
  · intro ch hch
    have := (List.mem_filter.mp hch).2
    simpa using this

/-- C6 witness: deleting project 100 of `dbProj` leaves exactly the rows of
the unrelated project 200. -/
theorem c6_delete_project_cascade_witness :
    ∃ db', delete_project dbProj 1 100 = Except.ok db' ∧
      db'.project_members = [⟨200, 10, PMStatus.accepted⟩] ∧
      db'.project_chats = [⟨8, 200, 1, "other"⟩] := by
  obtain ⟨db', h1, _, h3, h4, _⟩ :=
    c6_delete_project_cascade dbProj 1 100 10 Role.owner ⟨100, 10, "P", "D"⟩ rfl rfl rfl rfl
  exact ⟨db', h1, by rw [h3]; rfl, by rw [h4]; rfl⟩

/-! ## C7 — connection chat: blocked fails, pending or accepted succeeds -/

/-- C7: for a caller whose active company is a party to the connection and
text of length 1..500, `send_connection_chat` fails with the
`blocked connection` error exactly when the row is Blocked, succeeds for
Pending or Accepted inserting exactly one chat row, and the chat table is
untouched by `accept_connection` (so chats survive the Pending → Accepted
transition). -/
theorem c7_connection_chat_blocked_vs_live
    (db : DB) (i cid a : Nat) (r : Role) (row : Connection) (text : String)
    (hctx : activeCompanyRole db i = some (a, r))
    (hrow : findConnectionById db cid = some row)
    (hparty : row.company_a = a ∨ row.company_b = a)
    (hlen1 : 1 ≤ text.length)
    (hlen2 : text.length ≤ 500) :
    (row.status = ConnStatus.blocked →
      send_connection_chat db i cid text = Except.error "blocked connection") ∧
    (row.status ≠ ConnStatus.blocked →
      ∃ db', send_connection_chat db i cid text = Except.ok db' ∧
        db'.connection_chats = ⟨db.next_id, cid, i, text⟩ :: db.connection_chats ∧
        db'.connections = db.connections) ∧
    (∀ j t db', accept_connection db j t = Except.ok db' →
      db'.connection_chats = db.connection_chats) := by
  have hparty' : (row.company_a == a || row.company_b == a) = true := by
    rcases hparty with h | h <;> simp [h]
  refine ⟨?_, ?_, ?_⟩
  · intro hblocked
    unfold send_connection_chat
    rw [if_neg (by omega), if_neg (by omega), hctx]
    simp only []
    rw [hrow]
    simp only []
    rw [if_neg (by simp [hparty'])]
    rw [if_pos hblocked]
  · intro hlive
    unfold send_connection_chat
    rw [if_neg (by omega), if_neg (by omega), hctx]
    simp only []
    rw [hrow]
    simp only []
    rw [if_neg (by simp [hparty'])]
    rw [if_neg hlive]
    exact ⟨_, rfl, rfl, rfl⟩
  · intro j t db' hacc
    unfold accept_connection at hacc
    rcases hj : activeCompanyRole db j with _ | ⟨c, rj⟩ <;> rw [hj] at hacc
    · cases hacc
    · by_cases hm : canManage rj = true
      · simp only [hm, Bool.true_eq_false, if_false] at hacc
        rcases hf : findConnection db (min c t) (max c t) with _ | row2 <;> rw [hf] at hacc
        · cases hacc
        · simp only [] at hacc
          by_cases hs : row2.status = ConnStatus.pending
          · rw [if_neg (by simp [hs])] at hacc
            by_cases hr : (row2.requested_by_company == c) = true
            · rw [if_pos hr] at hacc; cases hacc
            · rw [if_neg hr] at hacc
              cases hacc
              rfl
          · rw [if_pos hs] at hacc; cases hacc
      · have : canManage rj = false := by simpa using hm
        simp only [this, if_true] at hacc
        cases hacc

/-- C7 witness: identity 1 (a plain Member of company 10, a party to the
Pending connection 5 of `dbConn`) chats successfully, appending one row. -/
theorem c7_connection_chat_blocked_vs_live_witness :
    ∃ db', send_connection_chat dbConn 1 5 "3m x 2m vinyl" = Except.ok db' ∧
      db'.connection_chats =
        ⟨dbConn.next_id, 5, 1, "3m x 2m vinyl"⟩ :: dbConn.connection_chats := by
  obtain ⟨-, h2, -⟩ :=
    c7_connection_chat_blocked_vs_live dbConn 1 5 10 Role.member
      ⟨5, 10, 20, ConnStatus.pending, 20, none⟩ "3m x 2m vinyl"
      rfl rfl (Or.inl rfl) (by decide) (by decide)
  obtain ⟨db', hok, hchats, -⟩ := h2 (by decide)
  exact ⟨db', hok, hchats⟩

/-! ## C8 — accept_connection succeeds exactly on a foreign Pending row -/

/-- C8: for a managing caller with active company `a`, `accept_connection`
succeeds iff the canonical row exists, is Pending and was not requested by
`a`; a requester accepting its own request gets the
`cannot accept your own` error, a non-Pending row gets `not pending`, and
on success the row transitions to Accepted. -/
theorem c8_accept_connection_iff
    (db : DB) (i t a : Nat) (r : Role)
    (hctx : activeCompanyRole db i = some (a, r))
    (hmgr : canManage r = true) :
    ((∃ db', accept_connection db i t = Except.ok db') ↔
      (∃ row, findConnection db (min a t) (max a t) = some row ∧
        row.status = ConnStatus.pending ∧ row.requested_by_company ≠ a)) ∧
    (∀ row, findConnection db (min a t) (max a t) = some row →
      row.status ≠ ConnStatus.pending →
      accept_connection db i t = Except.error "not pending") ∧
    (∀ row, findConnection db (min a t) (max a t) = some row →
      row.status = ConnStatus.pending → row.requested_by_company = a →
      accept_connection db i t = Except.error "cannot accept your own") ∧
    (∀ row db', findConnection db (min a t) (max a t) = some row →
      accept_connection db i t = Except.ok db' →
      findConnection db' (min a t) (max a t) =
        some { row with status := ConnStatus.accepted }) := by
  have hred : accept_connection db i t =
      (match findConnection db (min a t) (max a t) with
      | none => (Except.error "Connection not found" : Except String DB)
      | some row =>
        if row.status ≠ ConnStatus.pending then .error "not pending"
        else if row.requested_by_company == a then .error "cannot accept your own"
        else .ok { db with
          connections := db.connections.map (fun r2 =>
            if r2.company_a == min a t && r2.company_b == max a t then
              { r2 with status := ConnStatus.accepted }
            else r2),
          notifications :=
            notifyManagers db row.requested_by_company NotifType.connectionAccepted ++
            db.notifications }) := by
    unfold accept_connection
    rw [hctx]
    simp only [hmgr, Bool.true_eq_false, if_false]
  refine ⟨⟨?_, ?_⟩, ?_, ?_, ?_⟩
  · rintro ⟨db', hok⟩
    rw [hred] at hok
    rcases hf : findConnection db (min a t) (max a t) with _ | row <;> rw [hf] at hok
    · cases hok
    · simp only [] at hok
      by_cases hs : row.status = ConnStatus.pending
      · rw [if_neg (by simp [hs])] at hok
        by_cases hr : (row.requested_by_company == a) = true
        · rw [if_pos hr] at hok; cases hok
        · exact ⟨row, rfl, hs, by simpa using hr⟩
      · rw [if_pos (by simp [hs])] at hok; cases hok
  · rintro ⟨row, hf, hs, hr⟩
    have hok : accept_connection db i t = Except.ok { db with
        connections := db.connections.map (fun r2 =>
          if r2.company_a == min a t && r2.company_b == max a t then
            { r2 with status := ConnStatus.accepted }
          else r2),
        notifications :=
          notifyManagers db row.requested_by_company NotifType.connectionAccepted ++
          db.notifications } := by
      rw [hred, hf]
      simp only []
      rw [if_neg (by simp [hs]), if_neg (by simp [hr])]
    exact ⟨_, hok⟩
  · intro row hf hs
    rw [hred, hf]
    simp only []
    rw [if_pos (by simp [hs])]
  · intro row hf hs hr
    rw [hred, hf]
    simp only []
    rw [if_neg (by simp [hs]), if_pos (by simp [hr])]
  · intro row db' hf hok
    rw [hred, hf] at hok
    simp only [] at hok
    by_cases hs : row.status = ConnStatus.pending
    · rw [if_neg (by simp [hs])] at hok
      by_cases hr : (row.requested_by_company == a) = true
      · rw [if_pos hr] at hok; cases hok
      · rw [if_neg hr] at hok
        cases hok
        show findConnection { db with
          connections := db.connections.map _, notifications := _ } _ _ = _
        unfold findConnection at hf ⊢
        have hmatch : (row.company_a == min a t && row.company_b == max a t) = true := by
          have := List.find?_some hf
          simpa using this
        rw [find?_map_pres _ _ _ (fun r2 => by
          by_cases h2 : (r2.company_a == min a t && r2.company_b == max a t) = true <;>
            simp [h2])]
        rw [hf, Option.map_some', if_pos hmatch]
    · rw [if_pos (by simp [hs])] at hok; cases hok

/-- C8 witness: in `dbConn` the Pending row was requested by company 20, so
manager 2 of company 10 accepts successfully and the row becomes
Accepted. -/
theorem c8_accept_connection_iff_witness :
    ∃ db', accept_connection dbConn 2 20 = Except.ok db' := by
  obtain ⟨hiff, -⟩ := c8_accept_connection_iff dbConn 2 20 10 Role.admin rfl rfl
  exact hiff.mpr ⟨⟨5, 10, 20, ConnStatus.pending, 20, none⟩, rfl, rfl, by decide⟩

/-! ## C3 — project invite: accept updates in place, decline deletes

The claim states that declining leaves the ProjectMember row present with
status Declined. The integration test cited by the claim
(`re-invite after leave works`) waits for the row to be gone after a
decline, so the engine deletes it. -/

/-- C3 counterexample: in `dbInvite`, company 20 holds an Invited row for
project 100; `decline_project_invite` by its manager succeeds but the row
is deleted rather than kept with status Declined — only the owner's row
remains. -/
theorem c3_counterexample_decline_deletes_row :
    Except.map (fun d => d.project_members) (decline_project_invite dbInvite 2 100) =
      Except.ok [⟨100, 10, PMStatus.accepted⟩] := by
  rfl

/-- C3 (amended): with an Invited ProjectMember for the managing caller's
company, `accept_project_invite` succeeds and updates that row in place to
Accepted, while `decline_project_invite` succeeds and deletes the row. -/
theorem c3_invite_accept_updates_decline_deletes
    (db : DB) (i pid a : Nat) (r : Role) (p : Project) (pm : ProjectMember)
    (hctx : activeCompanyRole db i = some (a, r))
    (hmgr : canManage r = true)
    (hproj : findProject db pid = some p)
    (hpm : findProjectMember db pid a = some pm)
    (hinv : pm.status = PMStatus.invited) :
    (∃ dbA, accept_project_invite db i pid = Except.ok dbA ∧
      dbA.project_members = db.project_members.map (fun pm2 =>
        if pm2.project_id == pid && pm2.company_id == a then
          { pm2 with status := PMStatus.accepted }
        else pm2) ∧
      findProjectMember dbA pid a = some { pm with status := PMStatus.accepted }) ∧
    (∃ dbD, decline_project_invite db i pid = Except.ok dbD ∧
      dbD.project_members = db.project_members.filter (fun pm2 =>
        !(pm2.project_id == pid && pm2.company_id == a)) ∧
      findProjectMember dbD pid a = none) := by
  have hmatch : (pm.project_id == pid && pm.company_id == a) = true := by
    have := List.find?_some hpm
    simpa using this
  constructor
  · have hok : accept_project_invite db i pid = Except.ok { db with
        project_members := db.project_members.map (fun pm2 =>
          if pm2.project_id == pid && pm2.company_id == a then
            { pm2 with status := PMStatus.accepted }
          else pm2),
        notifications :=
          notifyManagers db p.owner_company_id NotifType.projectAccepted ++
          db.notifications } := by
      unfold accept_project_invite
      rw [hctx]
      simp only [hmgr, Bool.true_eq_false, if_false]
      rw [hproj]
      simp only []
      rw [hpm]
      simp only []
      rw [if_neg (by simp [hinv])]
    refine ⟨_, hok, rfl, ?_⟩
    show findProjectMember { db with project_members := _, notifications := _ } _ _ = _
    unfold findProjectMember at hpm ⊢
    rw [find?_map_pres _ _ _ (fun pm2 => by
      by_cases h2 : (pm2.project_id == pid && pm2.company_id == a) = true <;> simp [h2])]
    rw [hpm, Option.map_some', if_pos hmatch]
  · have hok : decline_project_invite db i pid = Except.ok { db with
        project_members := db.project_members.filter (fun pm2 =>
          !(pm2.project_id == pid && pm2.company_id == a)),
        notifications :=
          notifyManagers db p.owner_company_id NotifType.projectDeclined ++
          db.notifications } := by
      unfold decline_project_invite
      rw [hctx]
      simp only [hmgr, Bool.true_eq_false, if_false]
      rw [hproj]
      simp only []
      rw [hpm]
      simp only []
      rw [if_neg (by simp [hinv])]
    refine ⟨_, hok, rfl, ?_⟩
    show findProjectMember { db with project_members := _, notifications := _ } _ _ = _
    unfold findProjectMember
    exact find?_filter_not _ _

/-- C3 witness: the amended theorem evaluated on `dbInvite` — accepting
turns the (100, 20) row into Accepted, declining removes it. -/
theorem c3_invite_accept_updates_decline_deletes_witness :
    (∃ dbA, accept_project_invite dbInvite 2 100 = Except.ok dbA ∧
      findProjectMember dbA 100 20 = some ⟨100, 20, PMStatus.accepted⟩) ∧
    (∃ dbD, decline_project_invite dbInvite 2 100 = Except.ok dbD ∧
      findProjectMember dbD 100 20 = none) := by
  obtain ⟨⟨dbA, hA1, -, hA3⟩, ⟨dbD, hD1, -, hD3⟩⟩ :=
    c3_invite_accept_updates_decline_deletes dbInvite 2 100 20 Role.owner
      ⟨100, 10, "Hospital", "Signage"⟩ ⟨100, 20, PMStatus.invited⟩ rfl rfl rfl rfl rfl
  exact ⟨⟨dbA, hA1, hA3⟩, ⟨dbD, hD1, hD3⟩⟩

/-! ## C5 — double ownership transfer

Each transfer demotes the caller to Admin, so the round trip restores the
roles only when the target was an Admin to begin with. The claim quantifies
over every non-Pending target; a Member target refutes it. -/

/-- C5 counterexample: in `dbXfer`, identity 2 is a plain Member. After
`transfer_ownership` X→Y then Y→X, identity 2 ends up Admin, not Member —
the two Membership roles are not restored exactly. -/
theorem c5_counterexample_member_becomes_admin :
    Except.map (fun d => d.memberships)
        ((transfer_ownership dbXfer 1 2).bind (fun d => transfer_ownership d 2 1)) =
      Except.ok [⟨1, 10, Role.owner⟩, ⟨2, 10, Role.admin⟩] ∧
    dbXfer.memberships = [⟨1, 10, Role.owner⟩, ⟨2, 10, Role.member⟩] :=
  ⟨rfl, rfl⟩

/-- C5 (amended): when the target `Y` of the first transfer is an Admin of
the company whose single Owner is `X`, the transfer X→Y followed by Y→X
restores the Membership table exactly: each call atomically demotes the
caller to Admin and promotes the target to Owner, and the company has
exactly one Owner-role row at every stage. -/
theorem c5_transfer_ownership_involution_on_admin
    (db : DB) (X Y c : Nat)
    (hXY : X ≠ Y)
    (hacX : activeCompanyOf db X = some c)
    (hacY : activeCompanyOf db Y = some c)
    (hfX : db.memberships.filter (fun m => m.identity == X && m.company_id == c) =
      [⟨X, c, Role.owner⟩])
    (hfY : db.memberships.filter (fun m => m.identity == Y && m.company_id == c) =
      [⟨Y, c, Role.admin⟩])
    (hOwn : db.memberships.filter (fun m => m.company_id == c && m.role == Role.owner) =
      [⟨X, c, Role.owner⟩]) :
    ∃ db1 db2,
      transfer_ownership db X Y = Except.ok db1 ∧
      findMembership db1 X c = some ⟨X, c, Role.admin⟩ ∧
      findMembership db1 Y c = some ⟨Y, c, Role.owner⟩ ∧
      db1.memberships.filter (fun m => m.company_id == c && m.role == Role.owner) =
        [⟨Y, c, Role.owner⟩] ∧
      transfer_ownership db1 Y X = Except.ok db2 ∧
      db2.memberships = db.memberships ∧
      db2.memberships.filter (fun m => m.company_id == c && m.role == Role.owner) =
        [⟨X, c, Role.owner⟩] := by
  have hmX : findMembership db X c = some ⟨X, c, Role.owner⟩ := by
    unfold findMembership
    exact find?_of_filter_singleton _ _ _ hfX
  have hmY : findMembership db Y c = some ⟨Y, c, Role.admin⟩ := by
    unfold findMembership
    exact find?_of_filter_singleton _ _ _ hfY
  have hctx1 : activeCompanyRole db X = some (c, Role.owner) :=
    activeCompanyRole_of db X c ⟨X, c, Role.owner⟩ hacX hmX
  have h1 : transfer_ownership db X Y = Except.ok { db with
      memberships := db.memberships.map (fun m =>
        if m.identity == X && m.company_id == c then { m with role := Role.admin }
        else if m.identity == Y && m.company_id == c then { m with role := Role.owner }
        else m),
      notifications :=
        ⟨X, c, NotifType.ownershipTransferred⟩ ::
        ⟨Y, c, NotifType.ownershipTransferred⟩ :: db.notifications } := by
    unfold transfer_ownership
    rw [hctx1]
    simp only []
    rw [if_neg (by simp)]
    rw [hmY]
    simp only []
    rw [if_neg (by simp)]
  -- the first rewrite map and its effect on memberships
  have hpredX : ∀ m : Membership,
      ((if m.identity == X && m.company_id == c then { m with role := Role.admin }
        else if m.identity == Y && m.company_id == c then { m with role := Role.owner }
        else m).identity == X &&
       (if m.identity == X && m.company_id == c then { m with role := Role.admin }
        else if m.identity == Y && m.company_id == c then { m with role := Role.owner }
        else m).company_id == c) = (m.identity == X && m.company_id == c) := by
    intro m
    by_cases ha : (m.identity == X && m.company_id == c) = true <;>
      by_cases hb : (m.identity == Y && m.company_id == c) = true <;>
        simp [ha, hb]
  have hpredY : ∀ m : Membership,
      ((if m.identity == X && m.company_id == c then { m with role := Role.admin }
        else if m.identity == Y && m.company_id == c then { m with role := Role.owner }
        else m).identity == Y &&
       (if m.identity == X && m.company_id == c then { m with role := Role.admin }
        else if m.identity == Y && m.company_id == c then { m with role := Role.owner }
        else m).company_id == c) = (m.identity == Y && m.company_id == c) := by
    intro m
    by_cases ha : (m.identity == X && m.company_id == c) = true <;>
      by_cases hb : (m.identity == Y && m.company_id == c) = true <;>
        simp [ha, hb]
  -- name the committed state of the first transfer and record its fields
  generalize hdb1 : ({ db with
      memberships := db.memberships.map (fun m =>
        if m.identity == X && m.company_id == c then { m with role := Role.admin }
        else if m.identity == Y && m.company_id == c then { m with role := Role.owner }
        else m),
      notifications :=
        ⟨X, c, NotifType.ownershipTransferred⟩ ::
        ⟨Y, c, NotifType.ownershipTransferred⟩ :: db.notifications } : DB) = db1 at h1
  have hmem1 : db1.memberships = db.memberships.map (fun m =>
      if m.identity == X && m.company_id == c then { m with role := Role.admin }
      else if m.identity == Y && m.company_id == c then { m with role := Role.owner }
      else m) := by rw [← hdb1]
  have hacc1 : db1.accounts = db.accounts := by rw [← hdb1]
  have hnot1 : db1.notifications =
      ⟨X, c, NotifType.ownershipTransferred⟩ ::
      ⟨Y, c, NotifType.ownershipTransferred⟩ :: db.notifications := by rw [← hdb1]
  have hmX' : List.find? (fun m => m.identity == X && m.company_id == c) db.memberships =
      some ⟨X, c, Role.owner⟩ := hmX
  have hmY' : List.find? (fun m => m.identity == Y && m.company_id == c) db.memberships =
      some ⟨Y, c, Role.admin⟩ := hmY
  have hm1X : findMembership db1 X c = some ⟨X, c, Role.admin⟩ := by
    unfold findMembership
    rw [hmem1, find?_map_pres _ _ _ hpredX, hmX', Option.map_some']
    simp
  have hm1Y : findMembership db1 Y c = some ⟨Y, c, Role.owner⟩ := by
    unfold findMembership
    rw [hmem1, find?_map_pres _ _ _ hpredY, hmY', Option.map_some']
    simp [Ne.symm hXY]
  have hacY1 : activeCompanyOf db1 Y = some c := by
    unfold activeCompanyOf findAccount at hacY ⊢
    rw [hacc1]
    exact hacY
  have hctx2 : activeCompanyRole db1 Y = some (c, Role.owner) :=
    activeCompanyRole_of db1 Y c ⟨Y, c, Role.owner⟩ hacY1 hm1Y
  have h2 : transfer_ownership db1 Y X = Except.ok { db1 with
      memberships := db1.memberships.map (fun m =>
        if m.identity == Y && m.company_id == c then { m with role := Role.admin }
        else if m.identity == X && m.company_id == c then { m with role := Role.owner }
        else m),
      notifications :=
        ⟨Y, c, NotifType.ownershipTransferred⟩ ::
        ⟨X, c, NotifType.ownershipTransferred⟩ :: db1.notifications } := by
    unfold transfer_ownership
    rw [hctx2]
    simp only []
    rw [if_neg (by simp)]
    rw [hm1X]
    simp only []
    rw [if_neg (by simp)]
  have hback : db1.memberships.map (fun m =>
      if m.identity == Y && m.company_id == c then { m with role := Role.admin }
      else if m.identity == X && m.company_id == c then { m with role := Role.owner }
      else m) = db.memberships := by
    rw [hmem1, List.map_map]
    have hpt : ∀ m ∈ db.memberships,
        ((fun m => if m.identity == Y && m.company_id == c then { m with role := Role.admin }
          else if m.identity == X && m.company_id == c then { m with role := Role.owner }
          else m) ∘
         (fun m => if m.identity == X && m.company_id == c then { m with role := Role.admin }
          else if m.identity == Y && m.company_id == c then { m with role := Role.owner }
          else m)) m = id m := by
      intro m hm
      by_cases ha : (m.identity == X && m.company_id == c) = true
      · have hmx := eq_of_filter_singleton _ _ _ hfX m hm ha
        subst hmx
        simp [hXY, Ne.symm hXY]
      · by_cases hb : (m.identity == Y && m.company_id == c) = true
        · have hmy := eq_of_filter_singleton _ _ _ hfY m hm hb
          subst hmy
          simp [hXY, Ne.symm hXY]
        · simp only [Bool.and_eq_true, beq_iff_eq] at ha hb
          simp [ha, hb]
    rw [List.map_congr_left hpt, List.map_id]
  have hown1 : db1.memberships.filter
      (fun m => m.company_id == c && m.role == Role.owner) = [⟨Y, c, Role.owner⟩] := by
    rw [hmem1]
    rw [filter_map_switch _ (fun m => { m with role := Role.owner })
      (fun m => m.company_id == c && m.role == Role.owner)
      (fun m => m.identity == Y && m.company_id == c) db.memberships ?hpq ?hfg]
    · rw [hfY]
      simp
    case hpq =>
      intro m hm
      by_cases ha : (m.identity == X && m.company_id == c) = true
      · have hmx := eq_of_filter_singleton _ _ _ hfX m hm ha
        subst hmx
        simp [hXY]
      · by_cases hb : (m.identity == Y && m.company_id == c) = true
        · have hmy := eq_of_filter_singleton _ _ _ hfY m hm hb
          subst hmy
          simp [Ne.symm hXY]
        · have ho : (m.company_id == c && m.role == Role.owner) = false := by
            by_cases ho : (m.company_id == c && m.role == Role.owner) = true
            · have hmo := eq_of_filter_singleton _ _ _ hOwn m hm ho
              subst hmo
              simp at ha
            · simpa using ho
          simp [ha, hb, ho]
    case hfg =>
      intro m hm hb
      have hmy := eq_of_filter_singleton _ _ _ hfY m hm hb
      subst hmy
      simp [Ne.symm hXY]
  refine ⟨db1, _, h1, hm1X, hm1Y, hown1, h2, ?_, ?_⟩
  · show ({ db1 with memberships := _, notifications := _ } : DB).memberships = db.memberships
    simp only []
    exact hback
  · show ({ db1 with memberships := _, notifications := _ } : DB).memberships.filter _ = _
    simp only []
    rw [hback, hOwn]

/-- C5 witness: the amended theorem evaluated on `dbXferAdmin`, where
identity 3 is an Admin — the double transfer restores the Membership table
exactly. -/
theorem c5_transfer_ownership_involution_on_admin_witness :
    ∃ db1 db2, transfer_ownership dbXferAdmin 1 2 = Except.ok db1 ∧
      transfer_ownership db1 2 1 = Except.ok db2 ∧
      db2.memberships = dbXferAdmin.memberships := by
  obtain ⟨db1, db2, h1, -, -, -, h2, h3, -⟩ :=
    c5_transfer_ownership_involution_on_admin dbXferAdmin 1 2 10
      (by decide) rfl rfl rfl rfl rfl
  exact ⟨db1, db2, h1, h2, h3⟩

/-! ## C2 — the active-company invariant

`join_company` sets a first-time joiner's `active_company_id` to the joined
company while the inserted membership still has role Pending (the cited
test asserts exactly this), so the invariant as stated — a **non-Pending**
backing membership — fails on a reachable state. The membership-of-any-role
weakening is maintained by every modelled operation. -/

/-- Propositional reading of `inv6member`. -/
theorem inv6member_iff (db : DB) : inv6member db = true ↔
    ∀ a ∈ db.accounts, ∀ c, a.active_company_id = some c →
      ∃ m ∈ db.memberships, m.identity = a.identity ∧ m.company_id = c := by
  unfold inv6member
  rw [List.all_eq_true]
  constructor
  · intro h a ha c hc
    have h2 := h a ha
    rw [hc] at h2
    simp only [] at h2
    rw [List.any_eq_true] at h2
    obtain ⟨m, hm, hmp⟩ := h2
    simp only [Bool.and_eq_true, beq_iff_eq] at hmp
    exact ⟨m, hm, hmp.1, hmp.2⟩
  · intro h a ha
    cases hopt : a.active_company_id with
    | none => rfl
    | some c =>
      simp only []
      rw [List.any_eq_true]
      obtain ⟨m, hm, h1, h2⟩ := h a ha c hopt
      exact ⟨m, hm, by simp [h1, h2]⟩

/-- `inv6member` only reads the accounts and memberships tables. -/
theorem inv6member_ext (db1 db2 : DB)
    (ha : db2.accounts = db1.accounts) (hm : db2.memberships = db1.memberships)
    (h : inv6member db1 = true) : inv6member db2 = true := by
  unfold inv6member at h ⊢
  rw [ha, hm]
  exact h

/-- C2 counterexample: the reachable state of `dbJoinChain` — an account
creates a company and a one-use invite code, a fresh account joins — ends
with the joiner's `active_company_id` set to a company in which its only
membership is Pending: strict invariant 6 is false there while the
any-role weakening holds. -/
theorem c2_counterexample_first_join_pending_active :
    Except.map inv6strict dbJoinChain = Except.ok false ∧
    Except.map inv6member dbJoinChain = Except.ok true :=
  ⟨rfl, rfl⟩

/-- C2 (amended): the invariant weakened to "null or backed by a Membership
of any role" is preserved by every modelled operation, including
`join_company`, which on a first join activates the joined company while
the new membership is still Pending. -/
theorem c2_active_company_invariant_preserved (db db' : DB)
    (hinv : inv6member db = true) (hstep : Step db db') : inv6member db' = true := by
  cases hstep with
  | createAccount h =>
    unfold create_account at h
    split at h; · cases h
    split at h; · cases h
    split at h; · cases h
    split at h; · cases h
    split at h; · cases h
    split at h; · cases h
    split at h; · cases h
    cases h
    rw [inv6member_iff] at hinv ⊢
    intro a ha c hc
    simp only [] at ha
    rcases List.mem_cons.mp ha with rfl | ha0
    · cases hc
    · obtain ⟨m, hm, h1, h2⟩ := hinv a ha0 c hc
      exact ⟨m, hm, h1, h2⟩
  | @createCompany i n s loc h =>
    unfold create_company at h
    split at h
    · cases h
    · split at h; · cases h
      split at h; · cases h
      split at h; · cases h
      split at h; · cases h
      split at h; · cases h
      split at h; · cases h
      split at h; · cases h
      cases h
      rw [inv6member_iff] at hinv ⊢
      intro a ha c hc
      simp only [] at ha hc ⊢
      obtain ⟨a0, ha0, rfl⟩ := List.mem_map.mp ha
      by_cases hid : (a0.identity == i) = true
      · rw [if_pos hid] at hc ⊢
        simp only [] at hc
        cases hc
        refine ⟨⟨i, db.next_id, Role.owner⟩, List.mem_cons_self _ _, ?_, rfl⟩
        simp only [beq_iff_eq] at hid
        simp [hid]
      · rw [if_neg hid] at hc ⊢
        obtain ⟨m, hm, h1, h2⟩ := hinv a0 ha0 c hc
        exact ⟨m, List.mem_cons_of_mem _ hm, h1, h2⟩
  | @switchActive i c h =>
    unfold switch_active_company at h
    split at h
    · cases h
    · split at h
      · cases h
      · rename_i m hm
        split at h
        · cases h
        · cases h
          rw [inv6member_iff] at hinv ⊢
          intro a ha c2 hc
          simp only [] at ha
          obtain ⟨a0, ha0, rfl⟩ := List.mem_map.mp ha
          by_cases hid : (a0.identity == i) = true
          · rw [if_pos hid] at hc ⊢
            simp only [] at hc
            cases hc
            have hmm := List.mem_of_find?_eq_some hm
            have hmp := List.find?_some hm
            simp only [Bool.and_eq_true, beq_iff_eq] at hmp
            simp only [beq_iff_eq] at hid
            exact ⟨m, hmm, by simp [hmp.1, hid], hmp.2⟩
          · rw [if_neg hid] at hc ⊢
            exact hinv a0 ha0 c2 hc
  | genInvite h =>
    unfold generate_invite_code at h
    split at h
    · cases h
    · split at h; · cases h
      split at h; · cases h
      split at h; · cases h
      cases h
      exact inv6member_ext db _ rfl rfl hinv
  | @joinCompany i code h =>
    unfold join_company at h
    split at h
    · cases h
    · split at h
      · cases h
      · rename_i ic hic
        split at h; · cases h
        split at h; · cases h
        cases h
        rw [inv6member_iff] at hinv ⊢
        intro a ha c hc
        simp only [] at ha
        by_cases hfm : (db.memberships.all (fun m => !(m.identity == i))) = true
        · rw [if_pos hfm] at ha
          obtain ⟨a0, ha0, rfl⟩ := List.mem_map.mp ha
          by_cases hid : (a0.identity == i) = true
          · rw [if_pos hid] at hc ⊢
            simp only [] at hc
            cases hc
            refine ⟨⟨i, ic.company_id, Role.pending⟩, List.mem_cons_self _ _, ?_, rfl⟩
            simp only [beq_iff_eq] at hid
            simp [hid]
          · rw [if_neg hid] at hc ⊢
            obtain ⟨m, hm, h1, h2⟩ := hinv a0 ha0 c hc
            exact ⟨m, List.mem_cons_of_mem _ hm, h1, h2⟩
        · rw [if_neg hfm] at ha
          obtain ⟨m, hm, h1, h2⟩ := hinv a ha c hc
          exact ⟨m, List.mem_cons_of_mem _ hm, h1, h2⟩
  | @transferOwn i t h =>
    unfold transfer_ownership at h
    split at h
    · cases h
    · split at h; · cases h
      split at h
      · cases h
      · split at h
        · cases h
        · cases h
          rw [inv6member_iff] at hinv ⊢
          intro a ha c2 hc
          simp only [] at ha ⊢
          obtain ⟨m, hm, h1, h2⟩ := hinv a ha c2 hc
          refine ⟨_, List.mem_map.mpr ⟨m, hm, rfl⟩, ?_, ?_⟩
          · split
            · exact h1
            · split
              · exact h1
              · exact h1
          · split
            · exact h2
            · split
              · exact h2
              · exact h2
  | requestConn h =>
    unfold request_connection at h
    split at h
    · cases h
    · split at h; · cases h
      split at h; · cases h
      split at h; · cases h
      split at h; · cases h
      split at h
      · split at h
        · cases h
          exact inv6member_ext db _ rfl rfl hinv
        · cases h
      · cases h
        exact inv6member_ext db _ rfl rfl hinv
  | acceptConn h =>
    unfold accept_connection at h
    split at h
    · cases h
    · split at h; · cases h
      split at h
      · cases h
      · split at h; · cases h
        split at h; · cases h
        cases h
        exact inv6member_ext db _ rfl rfl hinv
  | blockComp h =>
    unfold block_company at h
    split at h
    · cases h
    · split at h; · cases h
      split at h; · cases h
      split at h; · cases h
      split at h
      · cases h
        exact inv6member_ext db _ rfl rfl hinv
      · cases h
        exact inv6member_ext db _ rfl rfl hinv
  | sendConnChat h =>
    unfold send_connection_chat at h
    split at h; · cases h
    split at h; · cases h
    split at h
    · cases h
    · split at h
      · cases h
      · split at h; · cases h
        split at h; · cases h
        cases h
        exact inv6member_ext db _ rfl rfl hinv
  | createProject h =>
    unfold create_project at h
    split at h
    · cases h
    · split at h; · cases h
      split at h; · cases h
      split at h; · cases h
      split at h; · cases h
      cases h
      exact inv6member_ext db _ rfl rfl hinv
  | acceptProjInvite h =>
    unfold accept_project_invite at h
    split at h
    · cases h
    · split at h; · cases h
      split at h
      · cases h
      · split at h
        · cases h
        · split at h; · cases h
          cases h
          exact inv6member_ext db _ rfl rfl hinv
  | declineProjInvite h =>
    unfold decline_project_invite at h
    split at h
    · cases h
    · split at h; · cases h
      split at h
      · cases h
      · split at h
        · cases h
        · split at h; · cases h
          cases h
          exact inv6member_ext db _ rfl rfl hinv
  | deleteProject h =>
    unfold delete_project at h
    split at h
    · cases h
    · split at h; · cases h
      split at h
      · cases h
      · split at h; · cases h
        cases h
        exact inv6member_ext db _ rfl rfl hinv

/-- C2 witness: the preservation theorem applied to the concrete join step
of `dbJoin2` (identity 1 joins company 10 with code "JOIN"). -/
theorem c2_active_company_invariant_preserved_witness :
    inv6member (okState (join_company dbJoin2 1 "JOIN")) = true :=
  c2_active_company_invariant_preserved dbJoin2
    (okState (join_company dbJoin2 1 "JOIN")) rfl
    (@Step.joinCompany dbJoin2 (okState (join_company dbJoin2 1 "JOIN")) 1 "JOIN" rfl)

/-! ## C4 — invite-code lifecycle -/

/-- One successful `join_company`: a Pending membership is inserted,
accounts keep existing, and the code row is decremented, disappearing when
the last use is consumed. -/
theorem join_company_spec (db : DB) (i : Nat) (code : String) (comp n : Nat)
    (hacct : (findAccount db i).isSome = true)
    (hic : findInvite db code = some ⟨code, comp, n⟩)
    (hn : 1 ≤ n)
    (hmem : db.memberships.any (fun m => m.identity == i && m.company_id == comp) = false) :
    ∃ db', join_company db i code = Except.ok db' ∧
      db'.memberships = ⟨i, comp, Role.pending⟩ :: db.memberships ∧
      (∀ j, (findAccount db' j).isSome = (findAccount db j).isSome) ∧
      (n = 1 → findInvite db' code = none) ∧
      (2 ≤ n → findInvite db' code = some ⟨code, comp, n - 1⟩) := by
  unfold join_company
  rcases hA : findAccount db i with _ | acct
  · rw [hA] at hacct
    simp at hacct
  · simp only []
    rw [hic]
    simp only []
    rw [if_neg (by omega)]
    rw [if_neg (by simp [hmem])]
    refine ⟨_, rfl, rfl, ?_, ?_, ?_⟩
    · intro j
      unfold findAccount
      simp only []
      by_cases hfm : (db.memberships.all (fun m => !(m.identity == i))) = true
      · rw [if_pos hfm]
        rw [find?_map_pres _ _ _ (fun a => by
          by_cases hj : (a.identity == i) = true <;> simp [hj])]
        exact Option.isSome_map
      · rw [if_neg hfm]
    · intro h1
      unfold findInvite
      simp only []
      rw [if_pos h1]
      exact find?_filter_not _ _
    · intro h2
      unfold findInvite at hic ⊢
      simp only []
      rw [if_neg (by omega)]
      rw [find?_map_pres _ _ _ (fun ic2 => by
        by_cases hc : (ic2.code == code) = true <;> simp [hc])]
      rw [hic, Option.map_some']
      simp

/-- Folding `join_company` over `n` distinct account-holding callers with
no memberships in the code's company consumes the code and deletes it on
the nth use. -/
theorem joinAll_consumes (code : String) (comp : Nat) :
    ∀ (callers : List Nat) (db : DB) (n : Nat),
      findInvite db code = some ⟨code, comp, n⟩ →
      callers.length = n →
      1 ≤ n →
      callers.Nodup →
      (∀ j ∈ callers, (findAccount db j).isSome = true) →
      (∀ j ∈ callers,
        db.memberships.any (fun m => m.identity == j && m.company_id == comp) = false) →
      ∃ dbf, joinAll code db callers = Except.ok dbf ∧ findInvite dbf code = none := by
  intro callers
  induction callers with
  | nil =>
    intro db n _ hlen hn _ _ _
    simp at hlen
    omega
  | cons j rest ih =>
    intro db n hic hlen hn hnd hacc hmem
    obtain ⟨db', hok, hmem', haccp, h1, h2⟩ :=
      join_company_spec db j code comp n (hacc j (by simp)) hic hn (hmem j (by simp))
    rw [List.nodup_cons] at hnd
    by_cases hone : n = 1
    · have hrest : rest = [] := by
        have hr0 : rest.length = 0 := by simp at hlen; omega
        exact List.length_eq_zero.mp hr0
      subst hrest
      exact ⟨db', by simp [joinAll, hok], h1 hone⟩
    · have hic' := h2 (by omega)
      obtain ⟨dbf, hjoin, hfin⟩ := ih db' (n - 1) hic'
        (by simp at hlen; omega)
        (by omega)
        hnd.2
        (fun j2 hj2 => by rw [haccp j2]; exact hacc j2 (by simp [hj2]))
        (fun j2 hj2 => by
          rw [hmem']
          have hne : j ≠ j2 := fun he => hnd.1 (he ▸ hj2)
          simp only [List.any_cons]
          rw [hmem j2 (by simp [hj2])]
          simp [hne])
      exact ⟨dbf, by simp [joinAll, hok, hjoin], hfin⟩

/-- C4: `join_company` against a code with `n ≥ 1` uses succeeds for an
account holder with no membership in the code's company, inserts a Pending
membership, decrements `uses_remaining` to `n − 1` and deletes the row when
it reaches 0; hence `generate_invite_code(n)` followed by `n` successful
joins by distinct fresh callers consumes the code and deletes it on the nth
use. -/
theorem c4_invite_lifecycle :
    (∀ db i code comp n, (findAccount db i).isSome = true →
      findInvite db code = some ⟨code, comp, n⟩ → 1 ≤ n →
      db.memberships.any (fun m => m.identity == i && m.company_id == comp) = false →
      ∃ db', join_company db i code = Except.ok db' ∧
        db'.memberships = ⟨i, comp, Role.pending⟩ :: db.memberships ∧
        (n = 1 → findInvite db' code = none) ∧
        (2 ≤ n → findInvite db' code = some ⟨code, comp, n - 1⟩)) ∧
    (∀ db mgr code n db1 callers,
      generate_invite_code db mgr code n = Except.ok db1 →
      callers.length = n →
      callers.Nodup →
      (∀ j ∈ callers, (findAccount db j).isSome = true) →
      (∀ j ∈ callers, ∀ m ∈ db.memberships, m.identity ≠ j) →
      ∃ dbf, joinAll code db1 callers = Except.ok dbf ∧ findInvite dbf code = none) := by
  constructor
  · intro db i code comp n hacct hic hn hmem
    obtain ⟨db', hok, hmems, _, h1, h2⟩ := join_company_spec db i code comp n hacct hic hn hmem
    exact ⟨db', hok, hmems, h1, h2⟩
  · intro db mgr code n db1 callers hgen hlen hnd hacc hmem
    unfold generate_invite_code at hgen
    split at hgen
    · cases hgen
    · split at hgen; · cases hgen
      split at hgen; · cases hgen
      split at hgen; · cases hgen
      rename_i c r hctx hmgr hmax hfree
      cases hgen
      refine joinAll_consumes code c callers _ n ?_ hlen ?_ hnd ?_ ?_
      · unfold findInvite
        simp only []
        rw [List.find?_cons_of_pos _ (by simp)]
      · omega
      · intro j hj
        exact hacc j hj
      · intro j hj
        simp only []
        rw [List.any_eq_false]
        intro m hm
        have := hmem j hj m hm
        simp [this]

/-- C4 witness: on `dbJoin0`, manager 9 generates the two-use code "JOIN";
the joins by the fresh accounts 1 and 2 succeed and the second join deletes
the code row. -/
theorem c4_invite_lifecycle_witness :
    ∃ dbf,
      joinAll "JOIN" (okState (generate_invite_code dbJoin0 9 "JOIN" 2)) [1, 2] =
        Except.ok dbf ∧
      findInvite dbf "JOIN" = none := by
  obtain ⟨-, h2⟩ := c4_invite_lifecycle
  exact h2 dbJoin0 9 "JOIN" 2 (okState (generate_invite_code dbJoin0 9 "JOIN" 2)) [1, 2]
    rfl rfl (by decide) (by decide) (by decide)

/-! ## C9 — the client invite-code formatter -/

/-- Mapping over a list pointwise fixed by `f` is the identity. -/
theorem map_id_on {α : Type} (f : α → α) (l : List α) (h : ∀ x ∈ l, f x = x) :
    l.map f = l := by
  induction l with
  | nil => rfl
  | cons x xs ih =>
    rw [List.map_cons, h x (by simp), ih (fun y hy => h y (by simp [hy]))]

/-- `jsToUpper` fixes the invite-code alphabet (all its characters are
uppercase letters or digits). -/
theorem jsToUpper_fix_code (c : Char) (h : isCodeChar c = true) : jsToUpper c = c := by
  unfold isCodeChar at h
  simp only [Bool.or_eq_true, Bool.and_eq_true, decide_eq_true_eq] at h
  unfold jsToUpper
  rw [if_neg (by omega)]

/-- Uppercasing cannot lose invite-code alphabet characters. -/
theorem filter_code_map_upper_ge (l : List Char) :
    (l.filter isCodeChar).length ≤ ((l.map jsToUpper).filter isCodeChar).length := by
  induction l with
  | nil => simp
  | cons c cs ih =>
    rw [List.map_cons]
    by_cases hc : isCodeChar c = true
    · rw [List.filter_cons_of_pos hc, jsToUpper_fix_code c hc, List.filter_cons_of_pos hc]
      simpa using ih
    · rw [List.filter_cons_of_neg (by simpa using hc)]
      by_cases hc2 : isCodeChar (jsToUpper c) = true
      · rw [List.filter_cons_of_pos hc2]
        simp only [List.length_cons]
        omega
      · rw [List.filter_cons_of_neg (by simpa using hc2)]
        exact ih

/-- `group4` leaves lists of fewer than five characters unchanged. -/
theorem group4_short (l : List Char)
    (h : ∀ (a b c d e : Char) (rest : List Char), l = a :: b :: c :: d :: e :: rest → False) :
    group4 l = l := by
  rcases l with _ | ⟨a, _ | ⟨b, _ | ⟨c, _ | ⟨d, _ | ⟨e, rest⟩⟩⟩⟩⟩
  · rfl
  · rfl
  · rfl
  · rfl
  · rfl
  · exact ((h a b c d e rest rfl).elim)

/-- The dashes `group4` inserts are invisible to the alphabet filter. -/
theorem group4_filter_code (l : List Char) :
    (group4 l).filter isCodeChar = l.filter isCodeChar := by
  induction l using group4.induct with
  | case1 a b c d e rest ih =>
    simp only [group4]
    simp [List.filter_cons, ih, show isCodeChar '-' = false from by decide]
  | case2 l h => rw [group4_short l h]

/-- `jsToUpper` fixes `group4`'s output on an all-alphabet input. -/
theorem group4_map_upper :
    ∀ l : List Char, (∀ x ∈ l, isCodeChar x = true) →
      (group4 l).map jsToUpper = group4 l := by
  intro l
  induction l using group4.induct with
  | case1 a b c d e rest ih =>
    intro hall
    simp only [group4, List.map_cons]
    rw [jsToUpper_fix_code a (hall a (by simp)), jsToUpper_fix_code b (hall b (by simp)),
      jsToUpper_fix_code c (hall c (by simp)), jsToUpper_fix_code d (hall d (by simp))]
    rw [show jsToUpper '-' = '-' from by decide]
    rw [ih (fun y hy => hall y (by
      rcases List.mem_cons.mp hy with rfl | hy2
      · simp
      · simp [hy2]))]
  | case2 l h =>
    intro hall
    rw [group4_short l h]
    exact map_id_on _ _ (fun x hx => jsToUpper_fix_code x (hall x hx))

/-- A list of length 16 is sixteen explicit elements. -/
theorem list_eq_sixteen {α : Type} (l : List α) (hlen : l.length = 16) :
    ∃ a b c d e f g h i j k m n o p q,
      l = [a, b, c, d, e, f, g, h, i, j, k, m, n, o, p, q] := by
  rcases l with _ | ⟨a, l⟩; · simp at hlen
  rcases l with _ | ⟨b, l⟩; · simp at hlen
  rcases l with _ | ⟨c, l⟩; · simp at hlen
  rcases l with _ | ⟨d, l⟩; · simp at hlen
  rcases l with _ | ⟨e, l⟩; · simp at hlen
  rcases l with _ | ⟨f, l⟩; · simp at hlen
  rcases l with _ | ⟨g, l⟩; · simp at hlen
  rcases l with _ | ⟨h, l⟩; · simp at hlen
  rcases l with _ | ⟨i, l⟩; · simp at hlen
  rcases l with _ | ⟨j, l⟩; · simp at hlen
  rcases l with _ | ⟨k, l⟩; · simp at hlen
  rcases l with _ | ⟨m, l⟩; · simp at hlen
  rcases l with _ | ⟨n, l⟩; · simp at hlen
  rcases l with _ | ⟨o, l⟩; · simp at hlen
  rcases l with _ | ⟨p, l⟩; · simp at hlen
  rcases l with _ | ⟨q, l⟩; · simp at hlen
  have hnil : l = [] := by
    simp only [List.length_cons] at hlen
    exact List.length_eq_zero.mp (by omega)
  subst hnil
  exact ⟨a, b, c, d, e, f, g, h, i, j, k, m, n, o, p, q, rfl⟩

/-- `group4` on sixteen characters: dashes after each block of four. -/
theorem group4_sixteen (a b c d e f g h i j k m n o p q : Char) :
    group4 [a, b, c, d, e, f, g, h, i, j, k, m, n, o, p, q] =
      [a, b, c, d, '-', e, f, g, h, '-', i, j, k, m, '-', n, o, p, q] := rfl

/-- C9 (amended, for the application-shell formatter of
`src/unnamed/part_012`): `formatCode` uppercases, keeps only the
`[A-HJKLMNP-Z2-9]` alphabet, truncates to 16 characters and groups them
4-4-4-4 with dashes at indices 4/9/14 — on any input with at least 16
alphabet characters the result matches the canonical pattern — and the
formatter is idempotent on every input. -/
theorem c9_format_code_canonical (l : List Char) :
    (16 ≤ (l.filter isCodeChar).length →
      matchesCanonicalCode (formatCode l) = true) ∧
    formatCode (formatCode l) = formatCode l := by
  have hall : ∀ x ∈ cleanCode l, isCodeChar x = true := fun x hx =>
    List.of_mem_filter (List.mem_of_mem_take hx)
  have hlen16 : (cleanCode l).length ≤ 16 := by
    unfold cleanCode
    simp [List.length_take]
  constructor
  · intro h16
    have hge := filter_code_map_upper_ge l
    have hlen : (cleanCode l).length = 16 := by
      unfold cleanCode
      rw [List.length_take]
      omega
    obtain ⟨a, b, c, d, e, f, g, h, i, j, k, m, n, o, p, q, heq⟩ :=
      list_eq_sixteen _ hlen
    rw [heq] at hall
    unfold formatCode
    rw [heq, group4_sixteen]
    unfold matchesCanonicalCode
    rw [Bool.and_eq_true]
    refine ⟨by simp, ?_⟩
    rw [List.all_eq_true]
    intro kk hkk
    rw [List.mem_range] at hkk
    interval_cases kk <;> simp_all
  · unfold formatCode
    have hclean : cleanCode (group4 (cleanCode l)) = cleanCode l := by
      show (((group4 (cleanCode l)).map jsToUpper).filter isCodeChar).take 16 = cleanCode l
      rw [group4_map_upper _ hall, group4_filter_code, List.filter_eq_self.mpr hall,
        List.take_of_length_le hlen16]
    rw [hclean]

/-- C9 counterexample: the other client invite-code formatter, in
`src/client/src/components/JoinCompanyForm.tsx`, keeps `[A-Z0-9]` (with I,
O, 0, 1) and truncates to eight characters, so on an input with 16 alphabet
characters it produces `ABCD-EFGH`, which does not match the canonical
4-4-4-4 pattern. -/
theorem c9_counterexample_joinform_formatter :
    formatCodeJoinForm "ABCDEFGHJKLMNPQR".data = "ABCD-EFGH".data ∧
    16 ≤ ("ABCDEFGHJKLMNPQR".data.filter isCodeChar).length ∧
    matchesCanonicalCode (formatCodeJoinForm "ABCDEFGHJKLMNPQR".data) = false := by
  refine ⟨by decide, by decide, by decide⟩

/-- C9 witness: the amended theorem applied to a concrete raw input. -/
theorem c9_format_code_canonical_witness :
    matchesCanonicalCode (formatCode "ABCD EFGH JKLM NPQR".data) = true ∧
    formatCode (formatCode "ABCD EFGH JKLM NPQR".data) =
      formatCode "ABCD EFGH JKLM NPQR".data :=
  ⟨(c9_format_code_canonical "ABCD EFGH JKLM NPQR".data).1 (by decide),
   (c9_format_code_canonical "ABCD EFGH JKLM NPQR".data).2⟩

/-! ## C10 — the client slug generator -/

/-- `jsToLower` fixes the slug alphabet (lowercase letters and digits). -/
theorem jsToLower_fix_slug (c : Char) (h : isSlugChar c = true) : jsToLower c = c := by
  unfold isSlugChar at h
  simp only [Bool.or_eq_true, Bool.and_eq_true, decide_eq_true_eq] at h
  unfold jsToLower
  rw [if_neg (by omega)]

/-- Slug characters and dashes are not JS white space. -/
theorem slug_not_space (c : Char) (h : isSlugChar c = true ∨ c = '-') :
    isJsSpace c = false := by
  rcases h with h | rfl
  · unfold isSlugChar at h
    simp only [Bool.or_eq_true, Bool.and_eq_true, decide_eq_true_eq] at h
    unfold isJsSpace
    simp only [Bool.or_eq_false_iff, beq_eq_false_iff_ne, ne_eq]
    omega
  · decide

/-- `dropWhile` is the identity when no element satisfies the predicate. -/
theorem dropWhile_eq_self_of_all {α : Type} (p : α → Bool) (l : List α)
    (h : ∀ c ∈ l, p c = false) : l.dropWhile p = l := by
  cases l with
  | nil => rfl
  | cons x xs =>
    rw [List.dropWhile_cons_of_neg (by simp [h x (by simp)])]

/-- `dropWhile` is the identity when the head does not satisfy the
predicate. -/
theorem dropWhile_id_of_head {α : Type} (p : α → Bool) (l : List α)
    (h : ∀ c, l.head? = some c → p c = false) : l.dropWhile p = l := by
  cases l with
  | nil => rfl
  | cons x xs =>
    rw [List.dropWhile_cons_of_neg (by simp [h x rfl])]

/-- The head surviving a `dropWhile` fails the predicate. -/
theorem head_dropWhile_false {α : Type} (p : α → Bool) :
    ∀ (l : List α) (c : α) (t : List α), l.dropWhile p = c :: t → p c = false := by
  intro l
  induction l with
  | nil => intro c t h; cases h
  | cons x xs ih =>
    intro c t h
    by_cases hx : p x = true
    · rw [List.dropWhile_cons_of_pos hx] at h
      exact ih c t h
    · rw [List.dropWhile_cons_of_neg hx] at h
      injection h with h1 _
      subst h1
      simpa using hx

/-- A list with no double dash keeps the property after dropping its
head. -/
theorem noDoubleDash_tail (x : Char) (l : List Char)
    (h : noDoubleDash (x :: l) = true) : noDoubleDash l = true := by
  cases l with
  | nil => rfl
  | cons y ys =>
    simp only [noDoubleDash, Bool.and_eq_true] at h
    exact h.2

/-- A prefix of a list with no double dash has no double dash. -/
theorem noDoubleDash_append_left :
    ∀ (l t : List Char), noDoubleDash (l ++ t) = true → noDoubleDash l = true := by
  intro l
  induction l with
  | nil => intro t _; rfl
  | cons x l' ih =>
    intro t h
    cases l' with
    | nil => rfl
    | cons y l'' =>
      simp only [List.cons_append, noDoubleDash, Bool.and_eq_true] at h ⊢
      exact ⟨h.1, ih t h.2⟩

/-- A suffix of a list with no double dash has no double dash. -/
theorem noDoubleDash_append_right :
    ∀ (t l : List Char), noDoubleDash (t ++ l) = true → noDoubleDash l = true := by
  intro t
  induction t with
  | nil => intro l h; exact h
  | cons x t' ih =>
    intro l h
    rw [List.cons_append] at h
    exact ih l (noDoubleDash_tail _ _ h)

/-- `squeezeDashes` preserves the head of a non-empty list. -/
theorem squeeze_head : ∀ (r : List Char) (x : Char),
    (squeezeDashes (x :: r)).head? = some x := by
  intro r
  induction r with
  | nil => intro x; rfl
  | cons b r' ih =>
    intro x
    by_cases hc : (x == '-' && b == '-') = true
    · simp only [squeezeDashes, hc, if_true]
      rw [ih b]
      simp only [Bool.and_eq_true, beq_iff_eq] at hc
      rw [hc.1, hc.2]
    · simp only [squeezeDashes, hc, if_false]
      rfl

/-- `squeezeDashes` leaves no two consecutive dashes. -/
theorem squeeze_noDD : ∀ l : List Char, noDoubleDash (squeezeDashes l) = true := by
  intro l
  induction l using squeezeDashes.induct with
  | case1 => rfl
  | case2 c => rfl
  | case3 a b rest hc ih =>
    simp only [squeezeDashes, hc, if_true]
    exact ih
  | case4 a b rest hc ih =>
    have hstep : squeezeDashes (a :: b :: rest) = a :: squeezeDashes (b :: rest) := by
      simp only [squeezeDashes]
      rw [if_neg hc]
    rw [hstep]
    rcases hsq : squeezeDashes (b :: rest) with _ | ⟨y, t⟩
    · rfl
    · have hy : y = b := by
        have h0 := squeeze_head rest b
        rw [hsq] at h0
        simpa using h0
      subst hy
      show noDoubleDash (a :: y :: t) = true
      simp only [noDoubleDash]
      rw [Bool.and_eq_true]
      constructor
      · have hcf : (a == '-' && y == '-') = false := by
          cases hx : (a == '-' && y == '-') with
          | false => rfl
          | true => exact absurd hx hc
        rw [hcf]
        rfl
      · rw [← hsq]
        exact ih

/-- Every character kept by `squeezeDashes` comes from the input. -/
theorem squeeze_subset : ∀ (l : List Char) (x : Char),
    x ∈ squeezeDashes l → x ∈ l := by
  intro l
  induction l using squeezeDashes.induct with
  | case1 => intro x hx; cases hx
  | case2 c => intro x hx; exact hx
  | case3 a b rest hc ih =>
    intro x hx
    simp only [squeezeDashes, hc, if_true] at hx
    exact List.mem_cons_of_mem _ (ih x hx)
  | case4 a b rest hc ih =>
    intro x hx
    simp only [squeezeDashes, hc, if_false] at hx
    rcases List.mem_cons.mp hx with rfl | hx2
    · simp
    · exact List.mem_cons_of_mem _ (ih x hx2)

/-- `squeezeDashes` is the identity on lists with no double dash. -/
theorem squeeze_id : ∀ l : List Char, noDoubleDash l = true → squeezeDashes l = l := by
  intro l
  induction l using squeezeDashes.induct with
  | case1 => intro; rfl
  | case2 c => intro; rfl
  | case3 a b rest hc ih =>
    intro h
    simp only [noDoubleDash, Bool.and_eq_true] at h
    rw [hc] at h
    simp at h
  | case4 a b rest hc ih =>
    intro h
    have hstep : squeezeDashes (a :: b :: rest) = a :: squeezeDashes (b :: rest) := by
      simp only [squeezeDashes]
      rw [if_neg hc]
    rw [hstep, ih (noDoubleDash_tail _ _ h)]

/-- `stripDashEnds` keeps only characters of the input. -/
theorem strip_mem (l : List Char) (x : Char) (hx : x ∈ stripDashEnds l) : x ∈ l := by
  unfold stripDashEnds at hx
  rw [List.mem_reverse] at hx
  have h1 := (List.dropWhile_sublist _).subset hx
  rw [List.mem_reverse] at h1
  exact (List.dropWhile_sublist _).subset h1

/-- The decomposition behind the trailing-dash strip: the result is a
prefix of the leading-dash strip. -/
theorem strip_decomp (m : List Char) :
    (m.reverse.dropWhile (fun c => c == '-')).reverse ++
      (m.reverse.takeWhile (fun c => c == '-')).reverse = m := by
  rw [← List.reverse_append, List.takeWhile_append_dropWhile, List.reverse_reverse]

/-- `stripDashEnds` preserves the no-double-dash property. -/
theorem strip_noDD (l : List Char) (h : noDoubleDash l = true) :
    noDoubleDash (stripDashEnds l) = true := by
  have h1 : noDoubleDash (l.dropWhile (fun c => c == '-')) = true := by
    have hsp := List.takeWhile_append_dropWhile (p := fun c => c == '-') (l := l)
    rw [← hsp] at h
    exact noDoubleDash_append_right _ _ h
  unfold stripDashEnds
  exact noDoubleDash_append_left _ _ (by rw [strip_decomp]; exact h1)

/-- The first character of `stripDashEnds`'s result is not a dash. -/
theorem strip_head (l : List Char) (c : Char)
    (hc : (stripDashEnds l).head? = some c) : (c == '-') = false := by
  rcases hres : stripDashEnds l with _ | ⟨c0, r⟩
  · rw [hres] at hc; cases hc
  · rw [hres] at hc
    injection hc with hc0
    subst hc0
    have hdec := strip_decomp (l.dropWhile (fun ch => ch == '-'))
    unfold stripDashEnds at hres
    rw [hres] at hdec
    exact head_dropWhile_false _ l c0 _ hdec.symm

/-- The last character of `stripDashEnds`'s result is not a dash. -/
theorem strip_last (l : List Char) (c : Char)
    (hc : (stripDashEnds l).getLast? = some c) : (c == '-') = false := by
  unfold stripDashEnds at hc
  rw [List.getLast?_reverse] at hc
  rcases hs : (l.dropWhile (fun ch => ch == '-')).reverse.dropWhile (fun ch => ch == '-') with
    _ | ⟨c0, t⟩
  · rw [hs] at hc; cases hc
  · rw [hs] at hc
    injection hc with hc0
    subst hc0
    exact head_dropWhile_false _ _ c0 _ hs

/-- `stripDashEnds` is the identity when neither end is a dash. -/
theorem strip_id (l : List Char)
    (hh : ∀ c, l.head? = some c → (c == '-') = false)
    (hl : ∀ c, l.getLast? = some c → (c == '-') = false) :
    stripDashEnds l = l := by
  unfold stripDashEnds
  rw [dropWhile_id_of_head _ l hh]
  rw [dropWhile_id_of_head _ l.reverse (fun c h => hl c (by rwa [List.head?_reverse] at h))]
  exact List.reverse_reverse l

/-- Every character `dashify` emits is a slug character or a dash. -/
theorem dashify_chars (w : List Char) :
    ∀ c ∈ dashify w, isSlugChar c = true ∨ c = '-' := by
  intro c hc
  obtain ⟨c0, _, rfl⟩ := List.mem_map.mp hc
  by_cases h0 : isSlugChar c0 = true
  · rw [if_pos h0]
    exact Or.inl h0
  · rw [if_neg h0]
    exact Or.inr rfl

/-- `jsTrim` is the identity on space-free lists. -/
theorem jsTrim_id_of_no_space (x : List Char) (h : ∀ c ∈ x, isJsSpace c = false) :
    jsTrim x = x := by
  unfold jsTrim
  rw [dropWhile_eq_self_of_all _ x h]
  rw [dropWhile_eq_self_of_all _ x.reverse (fun c hc => h c (List.mem_reverse.mp hc))]
  exact List.reverse_reverse x

/-- C10: `toSlug` emits lowercase kebab-case — only `[a-z0-9-]`, no leading
or trailing dash, no two consecutive dashes — and is idempotent. -/
theorem c10_toSlug_kebab_idempotent (l : List Char) :
    (∀ c ∈ toSlug l, isSlugChar c = true ∨ c = '-') ∧
    (∀ c, (toSlug l).head? = some c → c ≠ '-') ∧
    (∀ c, (toSlug l).getLast? = some c → c ≠ '-') ∧
    noDoubleDash (toSlug l) = true ∧
    toSlug (toSlug l) = toSlug l := by
  have hchars : ∀ c ∈ toSlug l, isSlugChar c = true ∨ c = '-' := by
    intro c hc
    unfold toSlug at hc
    exact dashify_chars _ c (squeeze_subset _ c (strip_mem _ c hc))
  have hhead : ∀ c, (toSlug l).head? = some c → c ≠ '-' := by
    intro c hc
    have := strip_head _ c hc
    simpa using this
  have hlast : ∀ c, (toSlug l).getLast? = some c → c ≠ '-' := by
    intro c hc
    have := strip_last _ c hc
    simpa using this
  have hnoDD : noDoubleDash (toSlug l) = true := by
    unfold toSlug
    exact strip_noDD _ (squeeze_noDD _)
  refine ⟨hchars, hhead, hlast, hnoDD, ?_⟩
  have hstep1 : (toSlug l).map jsToLower = toSlug l :=
    map_id_on _ _ (fun c hc => by
      rcases hchars c hc with h | rfl
      · exact jsToLower_fix_slug c h
      · decide)
  have hstep2 : jsTrim (toSlug l) = toSlug l :=
    jsTrim_id_of_no_space _ (fun c hc => slug_not_space c (hchars c hc))
  have hstep3 : dashify (toSlug l) = toSlug l :=
    map_id_on _ _ (fun c hc => by
      rcases hchars c hc with h | rfl
      · rw [if_pos h]
      · rw [if_neg (by decide)])
  have hstep4 : squeezeDashes (toSlug l) = toSlug l := squeeze_id _ hnoDD
  have hstep5 : stripDashEnds (toSlug l) = toSlug l :=
    strip_id _ (fun c hc => by simp [hhead c hc]) (fun c hc => by simp [hlast c hc])
  show stripDashEnds (squeezeDashes (dashify (jsTrim ((toSlug l).map jsToLower)))) = toSlug l
  rw [hstep1, hstep2, hstep3, hstep4, hstep5]

/-- C10 witness: the theorem applied to a concrete messy company name. -/
theorem c10_toSlug_kebab_idempotent_witness :
    noDoubleDash (toSlug "  Hello,  World! --x ".data) = true ∧
    toSlug (toSlug "  Hello,  World! --x ".data) = toSlug "  Hello,  World! --x ".data :=
  ⟨(c10_toSlug_kebab_idempotent "  Hello,  World! --x ".data).2.2.2.1,
   (c10_toSlug_kebab_idempotent "  Hello,  World! --x ".data).2.2.2.2⟩

end SignHub
